import Mathlib

/-!
Verification of the RRT* grid planner (src/main.cpp) against its
natural-language specification.

The embedding follows the source file closely.  Geometry is modelled over an
arbitrary linear ordered field `K` with a floor structure wherever the C++
code only uses field operations, comparisons and float-to-int conversion
(which truncates toward zero); the planning loop itself, which uses square
roots and logarithms, is modelled over `ℝ`.  The global variables of the
program (`gridSize`, `obstacles`, `cellSize = canvasSize / gridSize`) become
an explicit `Config` value.
-/

namespace RRT

/-- Size of the drawing canvas in pixels (`canvasSize = 500` in the source). -/
def canvasSize : ℤ := 500

/-- The grid configuration the program keeps in globals: the grid dimension
`gridSize` and the set of obstacle cells (row, column). -/
structure Config where
  gridSize : ℤ
  obstacles : Finset (ℤ × ℤ)

/-- Size of one cell in pixels, `cellSize = canvasSize / gridSize`
(C++ integer division). -/
def cellSize (c : Config) : ℤ := canvasSize / c.gridSize

section Grid

variable {K : Type} [LinearOrderedField K] [FloorRing K]

/-- C++ float-to-int conversion: truncation toward zero.  The source writes
`int r = pt.y / cellSize;`, which truncates the quotient toward zero. -/
def truncToInt (x : K) : ℤ := if x < 0 then -⌊-x⌋ else ⌊x⌋

theorem truncToInt_of_nonneg {x : K} (h : 0 ≤ x) : truncToInt x = ⌊x⌋ :=
  if_neg (not_lt.mpr h)

theorem truncToInt_of_neg {x : K} (h : x < 0) : truncToInt x = -⌊-x⌋ :=
  if_pos h

/-- The cell a continuous point maps to, as (row, column):
`r = pt.y / cellSize, c = pt.x / cellSize` with truncating conversion. -/
def cellOf (c : Config) (pt : K × K) : ℤ × ℤ :=
  (truncToInt (pt.2 / (cellSize c : K)), truncToInt (pt.1 / (cellSize c : K)))

/-- `isInsideGrid`: both cell indices lie in `[0, gridSize)`. -/
def isInsideGrid (c : Config) (pt : K × K) : Bool :=
  let r := truncToInt (pt.2 / (cellSize c : K))
  let cc := truncToInt (pt.1 / (cellSize c : K))
  decide (0 ≤ r) && decide (r < c.gridSize) && decide (0 ≤ cc) && decide (cc < c.gridSize)

/-- `isObstacle`: a point outside the grid counts as an obstacle, otherwise
membership of its cell in the obstacle set. -/
def isObstacle (c : Config) (pt : K × K) : Bool :=
  if isInsideGrid c pt then decide (cellOf c pt ∈ c.obstacles) else true

/-- The i-th sample point of the segment test: `a + (b - a) * (i / 10.0f)`. -/
def samplePt (a b : K × K) (i : ℕ) : K × K :=
  (a.1 + (b.1 - a.1) * ((i : K) / 10), a.2 + (b.2 - a.2) * ((i : K) / 10))

/-- `collisionFree`: the loop `for i = 1..10` returns false as soon as a
sample point is outside the grid or in an obstacle; it returns true when all
ten samples pass. -/
def collisionFree (c : Config) (a b : K × K) : Bool :=
  (List.range' 1 10).all fun i =>
    isInsideGrid c (samplePt a b i) && !(isObstacle c (samplePt a b i))

/-- `clampToGrid`: `std::clamp` of each coordinate into `[0, canvasSize - 1]`. -/
def clampToGrid (pt : K × K) : K × K :=
  (max 0 (min pt.1 (499 : K)), max 0 (min pt.2 (499 : K)))

theorem isInsideGrid_iff (c : Config) (pt : K × K) :
    isInsideGrid c pt = true ↔
      0 ≤ truncToInt (pt.2 / (cellSize c : K)) ∧
        truncToInt (pt.2 / (cellSize c : K)) < c.gridSize ∧
        0 ≤ truncToInt (pt.1 / (cellSize c : K)) ∧
        truncToInt (pt.1 / (cellSize c : K)) < c.gridSize := by
  simp [isInsideGrid, and_assoc]

theorem isObstacle_of_not_inside {c : Config} {pt : K × K}
    (h : isInsideGrid c pt = false) : isObstacle c pt = true := by
  simp [isObstacle, h]

theorem isObstacle_of_inside {c : Config} {pt : K × K}
    (h : isInsideGrid c pt = true) :
    isObstacle c pt = decide (cellOf c pt ∈ c.obstacles) := by
  simp [isObstacle, h]

end Grid

/-! ## The configuration phase (mouse and keyboard handling)

The only check performed before the planner starts (the `'s'` key handler)
is that a start and a goal have been picked: `start.x != -1 && goal.x != -1`.
The right-click handler overwrites `start` or `goal` with the clicked cell
unconditionally. -/

/-- Guard of the `'s'` branch of the key loop: planning is entered iff both
start and goal have been set (their x components differ from the sentinel
`-1`).  No other validation is performed. -/
def sKeyConfigures (start goal : ℤ × ℤ) : Bool :=
  decide (start.1 ≠ -1) && decide (goal.1 ≠ -1)

/-- Right-click branch of `mouseCallback`: sets the start (and clears the
`selectingStart` flag) or the goal to the clicked cell, with no check against
the obstacle set or the other endpoint.  Returns (start, goal,
selectingStart) after the event. -/
def rightClickPlace (selectingStart : Bool) (col row : ℤ) (start goal : ℤ × ℤ) :
    (ℤ × ℤ) × (ℤ × ℤ) × Bool :=
  if selectingStart then ((col, row), goal, false) else (start, (col, row), selectingStart)

/-! ## Claim C3: configuration validation -/

/-- C3 counterexample: after right-clicking cell (2,2) in goal-selection mode
with the start already at (2,2), both endpoints equal (2,2), and the `'s'`
guard nevertheless accepts the configuration, so the planner runs with
start = goal.  (The guard takes no obstacle information at all, so a start
or goal on an obstacle cell is accepted for the same reason.) -/
theorem sKey_accepts_degenerate_config :
    rightClickPlace false 2 2 (2, 2) (-1, -1) = ((2, 2), (2, 2), false) ∧
      sKeyConfigures (2, 2) (2, 2) = true := by
  constructor
  · rfl
  · decide

/-- C3 amended: the only validation before the planning loop is that a start
and a goal have been picked (`start.x != -1 && goal.x != -1`); equality of
start and goal, or their lying in an obstacle cell, is not checked. -/
theorem sKeyConfigures_iff (start goal : ℤ × ℤ) :
    sKeyConfigures start goal = true ↔ start.1 ≠ -1 ∧ goal.1 ≠ -1 := by
  simp [sKeyConfigures]

/-! ## Claim C4: bounds and obstacle queries -/

section GridFacts

variable {K : Type} [LinearOrderedField K] [FloorRing K]

theorem truncToInt_range_of_nonneg {cs : K} (hcs : 0 < cs) {n : ℤ} {x : K}
    (h0 : 0 ≤ x) (h1 : x < (n : K) * cs) :
    truncToInt (x / cs) = ⌊x / cs⌋ ∧ 0 ≤ ⌊x / cs⌋ ∧ ⌊x / cs⌋ < n := by
  have hq : 0 ≤ x / cs := div_nonneg h0 hcs.le
  refine ⟨truncToInt_of_nonneg hq, Int.floor_nonneg.mpr hq, ?_⟩
  exact Int.floor_lt.mpr ((div_lt_iff hcs).mpr h1)

theorem truncToInt_ge_of_ge {cs : K} (hcs : 0 < cs) {n : ℤ} {x : K}
    (hn : 0 ≤ n) (h : (n : K) * cs ≤ x) : n ≤ truncToInt (x / cs) := by
  have hx : 0 ≤ x := le_trans (by positivity) h
  rw [truncToInt_of_nonneg (div_nonneg hx hcs.le)]
  exact Int.le_floor.mpr ((le_div_iff hcs).mpr h)

theorem truncToInt_neg_of_le {cs : K} (hcs : 0 < cs) {x : K}
    (h : x ≤ -cs) : truncToInt (x / cs) < 0 := by
  have hx : x / cs < 0 := div_neg_of_neg_of_pos (lt_of_le_of_lt h (by linarith)) hcs
  rw [truncToInt_of_neg hx]
  have h1 : (1 : K) ≤ -(x / cs) := by
    rw [neg_div'] at *
    have : (1 : K) ≤ (-x) / cs := (le_div_iff hcs).mpr (by linarith)
    simpa [neg_div] using this
  have : (1 : ℤ) ≤ ⌊-(x / cs)⌋ := Int.le_floor.mpr (by exact_mod_cast h1)
  omega

/-- C4 amended: points with a coordinate at or beyond the grid extent
`gridSize * cellSize`, or at or below `-cellSize`, are rejected by
`isInsideGrid` and treated as blocked by `isObstacle`; every point with both
coordinates in `[0, gridSize * cellSize)` maps to exactly one cell by floor
division and is blocked exactly when that cell is in the obstacle set.
(Points with a coordinate in `(-cellSize, 0)` are NOT fail-closed: the
truncation toward zero maps them to cell index 0, see the counterexample.) -/
theorem isInsideGrid_isObstacle_spec (c : Config) (h1 : 0 < c.gridSize)
    (h2 : 0 < cellSize c) (pt : K × K) :
    (((c.gridSize : K) * (cellSize c : K) ≤ pt.1 ∨
        (c.gridSize : K) * (cellSize c : K) ≤ pt.2 ∨
        pt.1 ≤ -(cellSize c : K) ∨ pt.2 ≤ -(cellSize c : K)) →
      isInsideGrid c pt = false ∧ isObstacle c pt = true) ∧
    ((0 ≤ pt.1 ∧ pt.1 < (c.gridSize : K) * (cellSize c : K) ∧
        0 ≤ pt.2 ∧ pt.2 < (c.gridSize : K) * (cellSize c : K)) →
      isInsideGrid c pt = true ∧
        cellOf c pt = (⌊pt.2 / (cellSize c : K)⌋, ⌊pt.1 / (cellSize c : K)⌋) ∧
        (isObstacle c pt = true ↔ cellOf c pt ∈ c.obstacles)) := by
  have hcs : (0 : K) < (cellSize c : K) := by exact_mod_cast h2
  constructor
  · intro hout
    have hfalse : isInsideGrid c pt = false := by
      rw [Bool.eq_false_iff]
      intro htrue
      rw [isInsideGrid_iff] at htrue
      obtain ⟨hr0, hrN, hc0, hcN⟩ := htrue
      rcases hout with h | h | h | h
      · exact absurd hcN (not_lt.mpr (truncToInt_ge_of_ge hcs h1.le h))
      · exact absurd hrN (not_lt.mpr (truncToInt_ge_of_ge hcs h1.le h))
      · exact absurd hc0 (not_le.mpr (truncToInt_neg_of_le hcs h))
      · exact absurd hr0 (not_le.mpr (truncToInt_neg_of_le hcs h))
    exact ⟨hfalse, isObstacle_of_not_inside hfalse⟩
  · rintro ⟨hx0, hx1, hy0, hy1⟩
    obtain ⟨hex, hex0, hexN⟩ := truncToInt_range_of_nonneg hcs hx0 hx1
    obtain ⟨hey, hey0, heyN⟩ := truncToInt_range_of_nonneg hcs hy0 hy1
    have hin : isInsideGrid c pt = true := by
      rw [isInsideGrid_iff, hex, hey]
      exact ⟨hey0, heyN, hex0, hexN⟩
    have hcell : cellOf c pt = (⌊pt.2 / (cellSize c : K)⌋, ⌊pt.1 / (cellSize c : K)⌋) := by
      rw [cellOf, hex, hey]
    refine ⟨hin, hcell, ?_⟩
    rw [isObstacle_of_inside hin]
    simp

end GridFacts

/-- The all-free 5x5 configuration used in concrete counterexamples. -/
def cfg5 : Config := ⟨5, ∅⟩

/-- C4 counterexample: the continuous point (-1/2, -1/2) lies outside
`[0, extent)` in both axes, yet `isInsideGrid` returns true (truncation
toward zero maps -1/200 to cell 0) and `isObstacle` returns false: the
out-of-range point is treated as free space, not fail-closed. -/
theorem outOfRange_point_not_blocked :
    ((-1/2 : ℝ) < 0) ∧
      isInsideGrid cfg5 ((-1/2 : ℝ), (-1/2 : ℝ)) = true ∧
      isObstacle cfg5 ((-1/2 : ℝ), (-1/2 : ℝ)) = false := by
  have hcs : (cellSize cfg5 : ℝ) = 100 := by norm_num [cellSize, cfg5, canvasSize]
  have ht : truncToInt ((-1/2 : ℝ) / (cellSize cfg5 : ℝ)) = 0 := by
    rw [hcs, truncToInt_of_neg (by norm_num)]
    norm_num
  have hin : isInsideGrid cfg5 ((-1/2 : ℝ), (-1/2 : ℝ)) = true := by
    rw [isInsideGrid_iff]
    rw [show ((-1/2 : ℝ), (-1/2 : ℝ)).1 = (-1/2 : ℝ) from rfl,
      show ((-1/2 : ℝ), (-1/2 : ℝ)).2 = (-1/2 : ℝ) from rfl, ht]
    norm_num [cfg5]
  refine ⟨by norm_num, hin, ?_⟩
  rw [isObstacle_of_inside hin]
  simp [cfg5]

/-- The 5x5 configuration with a single obstacle cell (4,4). -/
def qcfg : Config := ⟨5, {(4, 4)}⟩

/-- C4 witness: the amended statement evaluated at the in-range point
(450, 450) of the 5x5 grid with obstacle cell (4,4): the point is inside,
maps to cell (4,4) by floor division, and is blocked exactly because that
cell is an obstacle. -/
theorem isInsideGrid_isObstacle_spec_witness :
    isInsideGrid qcfg ((450 : ℚ), (450 : ℚ)) = true ∧
      cellOf qcfg ((450 : ℚ), (450 : ℚ)) =
        (⌊(450 : ℚ) / (cellSize qcfg : ℚ)⌋, ⌊(450 : ℚ) / (cellSize qcfg : ℚ)⌋) ∧
      (isObstacle qcfg ((450 : ℚ), (450 : ℚ)) = true ↔
        cellOf qcfg ((450 : ℚ), (450 : ℚ)) ∈ qcfg.obstacles) :=
  (isInsideGrid_isObstacle_spec qcfg (by norm_num [qcfg])
      (by norm_num [cellSize, qcfg, canvasSize]) ((450 : ℚ), (450 : ℚ))).2
    (by norm_num [cellSize, qcfg, canvasSize])

/-! ## Claim C8: the segment test -/

/-- C8: `collisionFree a b` fails exactly when one of the ten sample points
`a + (b - a) * (i/10)`, `i = 1..10`, is outside the grid or in an obstacle
cell. -/
theorem collisionFree_eq_false_iff {K : Type} [LinearOrderedField K] [FloorRing K]
    (c : Config) (a b : K × K) :
    collisionFree c a b = false ↔
      ∃ i, 1 ≤ i ∧ i ≤ 10 ∧
        (isInsideGrid c (samplePt a b i) = false ∨
          isObstacle c (samplePt a b i) = true) := by
  rw [← Bool.not_eq_true]
  simp only [collisionFree, List.all_eq_true, List.mem_range', not_forall]
  constructor
  · rintro ⟨i, hi, hni⟩
    obtain ⟨k, hk, hik⟩ := hi
    refine ⟨i, by omega, by omega, ?_⟩
    cases hin : isInsideGrid c (samplePt a b i) with
    | false => exact Or.inl rfl
    | true =>
      cases hob : isObstacle c (samplePt a b i) with
      | true => exact Or.inr rfl
      | false => exact absurd (by simp [hin, hob]) hni
  · rintro ⟨i, h1, h2, h3⟩
    refine ⟨i, ⟨i - 1, by omega, by omega⟩, ?_⟩
    rcases h3 with h | h <;> simp [h]

/-! ## Claim C9: the segment test is directional -/

/-- The 5x5 configuration with a single obstacle cell (0,0). -/
def c9cfg : Config := ⟨5, {(0, 0)}⟩

/-- C9: with obstacle cell (0,0) of a 5x5 grid, the point a = (99, 50) lies
in the obstacle cell while every sample of the segment from a to
b = (199, 50) lies in the free cell (0,1), so `collisionFree a b` holds; in
the reverse direction the tenth sample is `a` itself, so `collisionFree b a`
fails: the segment test never evaluates its start point and is therefore not
commutative. -/
theorem collisionFree_not_commutative :
    isObstacle c9cfg ((99 : ℚ), (50 : ℚ)) = true ∧
      collisionFree c9cfg ((99 : ℚ), (50 : ℚ)) ((199 : ℚ), (50 : ℚ)) = true ∧
      collisionFree c9cfg ((199 : ℚ), (50 : ℚ)) ((99 : ℚ), (50 : ℚ)) = false := by
  have hr : List.range' 1 10 = [1, 2, 3, 4, 5, 6, 7, 8, 9, 10] := rfl
  refine ⟨?_, ?_, ?_⟩ <;>
    norm_num [collisionFree, hr, samplePt, isInsideGrid, isObstacle, cellOf,
      truncToInt, cellSize, canvasSize, c9cfg]

/-! ## The path post-processor (`smoothPath`, lines 116-129)

After extracting the raw path, the source runs a greedy shortcut loop:

    std::vector<cv::Point2f> smoothed = { path.front() };
    for (int i = 0, j; i < path.size() - 1; i = j) {
        for (j = path.size() - 1; j > i; --j)
            if (collisionFree(path[i], path[j])) break;
        smoothed.push_back(path[j]);
    }

The inner scan is `scanJ`; the outer loop, which does not terminate when the
scan comes back with `j == i`, is modelled with explicit fuel: `none` means
the fuel ran out (the C++ loop is still running). -/

section Smoothing

variable {K : Type} [LinearOrderedField K] [FloorRing K]

/-- The inner backward scan: starting at `j` and walking down while `j > i`,
return the first index whose segment from `path[i]` is collision-free, and
`i` itself when none is. -/
def scanJ (c : Config) (path : List (K × K)) (i : ℕ) : ℕ → ℕ
  | 0 => 0
  | j + 1 =>
    if i < j + 1 then
      if collisionFree c (path.getD i (0, 0)) (path.getD (j + 1) (0, 0)) then j + 1
      else scanJ c path i j
    else j + 1

/-- The outer greedy loop with fuel: one unit of fuel per iteration of the
C++ `for` loop (the final, failing loop test included). -/
def shortcutGo (c : Config) (path : List (K × K)) :
    ℕ → ℕ → List (K × K) → Option (List (K × K))
  | 0, _, _ => none
  | fuel + 1, i, acc =>
    if i < path.length - 1 then
      shortcutGo c path fuel (scanJ c path i (path.length - 1))
        (acc ++ [path.getD (scanJ c path i (path.length - 1)) (0, 0)])
    else some acc

/-- The smoothing phase of `smoothPath` applied to an already-extracted raw
path: `smoothed` starts as `{ path.front() }` and the loop runs from `i = 0`. -/
def smoothPathShortcut (c : Config) (fuel : ℕ) (path : List (K × K)) :
    Option (List (K × K)) :=
  shortcutGo c path fuel 0 [path.getD 0 (0, 0)]

theorem scanJ_spec (c : Config) (path : List (K × K)) (i j0 : ℕ) (hij : i ≤ j0) :
    (i < scanJ c path i j0 ∧ scanJ c path i j0 ≤ j0 ∧
      collisionFree c (path.getD i (0, 0)) (path.getD (scanJ c path i j0) (0, 0)) = true ∧
      ∀ j', scanJ c path i j0 < j' → j' ≤ j0 →
        collisionFree c (path.getD i (0, 0)) (path.getD j' (0, 0)) = false) ∨
    (scanJ c path i j0 = i ∧
      ∀ j', i < j' → j' ≤ j0 →
        collisionFree c (path.getD i (0, 0)) (path.getD j' (0, 0)) = false) := by
  induction j0 with
  | zero =>
    right
    refine ⟨?_, fun j' h1 h2 => by omega⟩
    rw [show scanJ c path i 0 = 0 from rfl]
    omega
  | succ k ih =>
    by_cases hik : i < k + 1
    · rw [scanJ, if_pos hik]
      cases hcf : collisionFree c (path.getD i (0, 0)) (path.getD (k + 1) (0, 0)) with
      | true =>
        left
        rw [if_pos rfl]
        exact ⟨hik, le_refl _, hcf, fun j' h1 h2 => by omega⟩
      | false =>
        rw [if_neg (by simp)]
        rcases ih (by omega) with ⟨h1, h2, h3, h4⟩ | ⟨h1, h2⟩
        · left
          refine ⟨h1, by omega, h3, fun j' hj1 hj2 => ?_⟩
          rcases Nat.lt_or_ge j' (k + 1) with h | h
          · exact h4 j' hj1 (by omega)
          · have : j' = k + 1 := by omega
            rw [this]
            exact hcf
        · right
          refine ⟨h1, fun j' hj1 hj2 => ?_⟩
          rcases Nat.lt_or_ge j' (k + 1) with h | h
          · exact h2 j' hj1 (by omega)
          · have : j' = k + 1 := by omega
            rw [this]
            exact hcf
    · have : i = k + 1 := by omega
      rw [scanJ, if_neg hik]
      right
      exact ⟨this.symm, fun j' h1 h2 => by omega⟩

theorem scanJ_eq_of_found (c : Config) (path : List (K × K)) {i j j0 : ℕ}
    (hij : i < j) (hj : j ≤ j0)
    (hcf : collisionFree c (path.getD i (0, 0)) (path.getD j (0, 0)) = true)
    (hall : ∀ j', j < j' → j' ≤ j0 →
      collisionFree c (path.getD i (0, 0)) (path.getD j' (0, 0)) = false) :
    scanJ c path i j0 = j := by
  induction j0 with
  | zero => omega
  | succ k ih =>
    rw [scanJ, if_pos (by omega)]
    rcases Nat.lt_or_ge j (k + 1) with h | h
    · rw [hall (k + 1) (by omega) (le_refl _)]
      simp only [Bool.false_eq_true, if_false]
      exact ih (by omega) (fun j' h1 h2 => hall j' h1 (by omega))
    · have : j = k + 1 := by omega
      rw [← this, hcf]
      simp [this]

/-- The anchors the greedy loop visits after `i`, together with the facts the
scan guarantees at each step: each anchor is the largest index at most
`path.length - 1` whose segment from the previous anchor is collision-free. -/
inductive StepsFrom (c : Config) (path : List (K × K)) : ℕ → List ℕ → Prop
  | nil (i : ℕ) (h : ¬ i < path.length - 1) : StepsFrom c path i []
  | cons (i j : ℕ) (js : List ℕ) (hi : i < path.length - 1)
      (hij : i < j) (hj : j ≤ path.length - 1)
      (hcf : collisionFree c (path.getD i (0, 0)) (path.getD j (0, 0)) = true)
      (hmax : ∀ j', j < j' → j' ≤ path.length - 1 →
        collisionFree c (path.getD i (0, 0)) (path.getD j' (0, 0)) = false)
      (rest : StepsFrom c path j js) : StepsFrom c path i (j :: js)

theorem shortcutGo_stuck (c : Config) (path : List (K × K)) {i : ℕ}
    (hlt : i < path.length - 1)
    (hall : ∀ j', i < j' → j' ≤ path.length - 1 →
      collisionFree c (path.getD i (0, 0)) (path.getD j' (0, 0)) = false) :
    ∀ fuel acc, shortcutGo c path fuel i acc = none := by
  have hscan : scanJ c path i (path.length - 1) = i := by
    rcases scanJ_spec c path i (path.length - 1) (by omega) with ⟨h1, h2, h3, _⟩ | ⟨h1, _⟩
    · exact absurd h3 (by rw [hall _ h1 h2]; simp)
    · exact h1
  intro fuel
  induction fuel with
  | zero => intro acc; rfl
  | succ f ih =>
    intro acc
    rw [shortcutGo, if_pos hlt, hscan]
    exact ih _

theorem shortcutGo_some (c : Config) (path : List (K × K)) :
    ∀ fuel i acc out, shortcutGo c path fuel i acc = some out →
      ∃ js, StepsFrom c path i js ∧
        out = acc ++ js.map (fun j => path.getD j (0, 0)) ∧ js.length < fuel := by
  intro fuel
  induction fuel with
  | zero => intro i acc out h; exact absurd h (by simp [shortcutGo])
  | succ f ih =>
    intro i acc out h
    by_cases hlt : i < path.length - 1
    · rw [shortcutGo, if_pos hlt] at h
      rcases scanJ_spec c path i (path.length - 1) (by omega) with ⟨h1, h2, h3, h4⟩ | ⟨h1, h2⟩
      · obtain ⟨js, hsteps, hout, hlen⟩ := ih _ _ _ h
        refine ⟨scanJ c path i (path.length - 1) :: js,
          StepsFrom.cons _ _ _ hlt h1 h2 h3 h4 hsteps, ?_, by simpa using hlen⟩
        rw [hout]
        simp
      · rw [h1] at h
        exact absurd h (by rw [shortcutGo_stuck c path hlt h2]; simp)
    · rw [shortcutGo, if_neg hlt] at h
      refine ⟨[], StepsFrom.nil i hlt, ?_, by simp⟩
      simpa using h.symm

theorem StepsFrom.length_le (c : Config) (path : List (K × K)) {i : ℕ} {js : List ℕ}
    (h : StepsFrom c path i js) : js.length ≤ (path.length - 1) - i := by
  induction h with
  | nil => simp
  | cons i j js hi hij hj hcf hmax rest ih => simp only [List.length_cons]; omega

theorem StepsFrom.last_eq (c : Config) (path : List (K × K)) {i : ℕ} {js : List ℕ}
    (h : StepsFrom c path i js) (hne : js ≠ []) :
    js.getLast? = some (path.length - 1) := by
  induction h with
  | nil => exact absurd rfl hne
  | cons i j js hi hij hj hcf hmax rest ih =>
    cases js with
    | nil =>
      cases rest with
      | nil j hj' => simp only [List.getLast?_singleton, Option.some_inj]; omega
    | cons j2 js2 =>
      rw [List.getLast?_cons_cons]
      exact ih (by simp)

theorem StepsFrom.chain (c : Config) (path : List (K × K)) {i : ℕ} {js : List ℕ}
    (h : StepsFrom c path i js) :
    List.Chain' (fun a b => collisionFree c a b = true)
      (path.getD i (0, 0) :: js.map (fun j => path.getD j (0, 0))) := by
  induction h with
  | nil => simp
  | cons i j js hi hij hj hcf hmax rest ih =>
    simp only [List.map_cons]
    exact List.Chain'.cons hcf ih

theorem shortcutGo_total (c : Config) (path : List (K × K))
    (hone : 1 ≤ path.length)
    (hchain : ∀ k, k + 1 ≤ path.length - 1 →
      collisionFree c (path.getD k (0, 0)) (path.getD (k + 1) (0, 0)) = true) :
    ∀ fuel i acc, i ≤ path.length - 1 → path.length - i ≤ fuel →
      ∃ out, shortcutGo c path fuel i acc = some out := by
  intro fuel
  induction fuel with
  | zero => intro i acc h1 h2; omega
  | succ f ih =>
    intro i acc h1 h2
    by_cases hlt : i < path.length - 1
    · rw [shortcutGo, if_pos hlt]
      rcases scanJ_spec c path i (path.length - 1) (by omega) with ⟨ha, hb, _, _⟩ | ⟨_, h4⟩
      · exact ih _ _ hb (by omega)
      · exact absurd (hchain i (by omega)) (by rw [h4 (i + 1) (by omega) (by omega)]; simp)
    · rw [shortcutGo, if_neg hlt]
      exact ⟨acc, rfl⟩

/-- C6: whenever the greedy shortcut loop returns on a non-empty raw path,
its output starts at the path's first point, ends at its last point, has at
most as many waypoints as the input, and every consecutive pair of output
waypoints passes the `collisionFree` segment check. -/
theorem smoothPathShortcut_preserves (c : Config) (fuel : ℕ)
    (p : K × K) (ps : List (K × K)) (out : List (K × K))
    (h : smoothPathShortcut c fuel (p :: ps) = some out) :
    out.head? = some p ∧ out.getLast? = (p :: ps).getLast? ∧
      out.length ≤ (p :: ps).length ∧
      List.Chain' (fun a b => collisionFree c a b = true) out := by
  obtain ⟨js, hsteps, hout, hlen⟩ := shortcutGo_some c (p :: ps) fuel 0 _ out h
  have hget0 : (p :: ps).getD 0 (0, 0) = p := rfl
  have hlenpos : 1 ≤ (p :: ps).length := by simp
  subst hout
  refine ⟨by simp [hget0], ?_, ?_, ?_⟩
  · cases hjs : js with
    | nil =>
      subst hjs
      cases hsteps with
      | nil _ hlt =>
        have hps : ps = [] := by
          cases ps with
          | nil => rfl
          | cons q qs => simp at hlt
        subst hps
        simp [hget0]
    | cons j1 js1 =>
      subst hjs
      have hlast := hsteps.last_eq c (p :: ps) (by simp)
      have hidx : (p :: ps).length - 1 < (p :: ps).length := by simp
      rw [List.getLast?_append, List.getLast?_map, hlast]
      rw [show (some ((p :: ps).length - 1)).map
            (fun j => (p :: ps).getD j (0, 0)) =
          some ((p :: ps).getD ((p :: ps).length - 1) (0, 0)) from rfl]
      rw [show (some ((p :: ps).getD ((p :: ps).length - 1) (0, 0))).or
            ([(p :: ps).getD 0 (0, 0)].getLast?) =
          some ((p :: ps).getD ((p :: ps).length - 1) (0, 0)) from rfl]
      rw [List.getLast?_eq_get? _, List.get?_eq_get hidx,
        List.getD_eq_get?, List.get?_eq_get hidx]
      rfl
  · have := hsteps.length_le c (p :: ps)
    simp only [List.length_append, List.length_cons, List.length_map,
      List.length_singleton, List.length_nil]
    simp only [List.length_cons] at this
    omega
  · have hchain := hsteps.chain c (p :: ps)
    rw [hget0] at hchain
    simpa using hchain

/-- C6 witness: on the one-point raw path [(50,50)] the loop returns the
path itself after one round, and every guaranteed property holds for it. -/
theorem smoothPathShortcut_preserves_witness :
    ([((50 : ℚ), (50 : ℚ))].head? = some ((50 : ℚ), (50 : ℚ)) ∧
      [((50 : ℚ), (50 : ℚ))].getLast? = [((50 : ℚ), (50 : ℚ))].getLast? ∧
      [((50 : ℚ), (50 : ℚ))].length ≤ [((50 : ℚ), (50 : ℚ))].length ∧
      List.Chain' (fun a b => collisionFree cfg5 a b = true)
        [((50 : ℚ), (50 : ℚ))]) :=
  smoothPathShortcut_preserves cfg5 1 ((50 : ℚ), (50 : ℚ)) [] _ rfl

/-- C10: (1) on any input path whose consecutive pairs all pass the segment
check, the greedy loop terminates within `path.length` rounds (the anchor
strictly increases each round); (2) from any anchor `i` that can reach no
strictly later waypoint with a collision-free segment, the inner scan comes
back with `j = i` and the loop never terminates, whatever the fuel. -/
theorem shortcut_progress_and_divergence :
    (∀ (c : Config) (p : K × K) (ps : List (K × K)),
      List.Chain' (fun a b => collisionFree c a b = true) (p :: ps) →
      ∃ out, smoothPathShortcut c (p :: ps).length (p :: ps) = some out) ∧
    (∀ (c : Config) (path : List (K × K)) (i : ℕ),
      i < path.length - 1 →
      (∀ j', i < j' → j' ≤ path.length - 1 →
        collisionFree c (path.getD i (0, 0)) (path.getD j' (0, 0)) = false) →
      scanJ c path i (path.length - 1) = i ∧
        ∀ fuel acc, shortcutGo c path fuel i acc = none) := by
  constructor
  · intro c p ps hchain
    have hone : 1 ≤ (p :: ps).length := by simp
    have hidx : ∀ k, k + 1 ≤ (p :: ps).length - 1 →
        collisionFree c ((p :: ps).getD k (0, 0)) ((p :: ps).getD (k + 1) (0, 0)) = true := by
      intro k hk
      have hk1 : k < (p :: ps).length - 1 := by omega
      have hg := List.chain'_iff_get.mp hchain k hk1
      have e1 : (p :: ps).getD k (0, 0) = (p :: ps).get ⟨k, by omega⟩ := by
        rw [List.getD_eq_get?, List.get?_eq_get (by omega : k < (p :: ps).length)]
        rfl
      have e2 : (p :: ps).getD (k + 1) (0, 0) = (p :: ps).get ⟨k + 1, by omega⟩ := by
        rw [List.getD_eq_get?, List.get?_eq_get (by omega : k + 1 < (p :: ps).length)]
        rfl
      rw [e1, e2]
      exact hg
    exact shortcutGo_total c (p :: ps) hone hidx (p :: ps).length 0 _ (by omega) (by omega)
  · intro c path i hlt hall
    refine ⟨?_, shortcutGo_stuck c path hlt hall⟩
    rcases scanJ_spec c path i (path.length - 1) (by omega) with ⟨h1, h2, h3, _⟩ | ⟨h1, _⟩
    · exact absurd h3 (by rw [hall _ h1 h2]; simp)
    · exact h1

/-- C10 witness: a terminating instance (straight two-point path, empty
grid) and a diverging instance (two-point path whose second point lies in an
obstacle cell, so the anchor 0 can reach nothing and the loop returns none
at every fuel). -/
theorem shortcut_progress_and_divergence_witness :
    (∃ out, smoothPathShortcut cfg5 [((50 : ℚ), (50 : ℚ)), (150, 50)].length
        [((50 : ℚ), (50 : ℚ)), (150, 50)] = some out) ∧
      (scanJ c9cfg [((150 : ℚ), (50 : ℚ)), (50, 50)] 0 1 = 0 ∧
        ∀ fuel acc, shortcutGo c9cfg [((150 : ℚ), (50 : ℚ)), (50, 50)] fuel 0 acc = none) := by
  constructor
  · refine (shortcut_progress_and_divergence (K := ℚ)).1 cfg5 ((50 : ℚ), (50 : ℚ)) [(150, 50)] ?_
    have hr : List.range' 1 10 = [1, 2, 3, 4, 5, 6, 7, 8, 9, 10] := rfl
    refine List.chain'_cons.mpr ⟨?_, by simp⟩
    norm_num [collisionFree, hr, samplePt, isInsideGrid, isObstacle,
      truncToInt, cellSize, canvasSize, cfg5]
  · refine (shortcut_progress_and_divergence (K := ℚ)).2 c9cfg
      [((150 : ℚ), (50 : ℚ)), (50, 50)] 0 (by simp) ?_
    intro j' h1 h2
    have hj : j' = 1 := by simp at h2; omega
    subst hj
    have hr : List.range' 1 10 = [1, 2, 3, 4, 5, 6, 7, 8, 9, 10] := rfl
    rw [show ([((150 : ℚ), (50 : ℚ)), (50, 50)].getD 0 (0, 0)) = ((150 : ℚ), (50 : ℚ)) from rfl,
      show ([((150 : ℚ), (50 : ℚ)), (50, 50)].getD 1 (0, 0)) = ((50 : ℚ), (50 : ℚ)) from rfl]
    norm_num [collisionFree, hr, samplePt, isInsideGrid, isObstacle, cellOf,
      truncToInt, cellSize, canvasSize, c9cfg, Prod.ext_iff]

theorem StepsFrom.mem_bounds (c : Config) (path : List (K × K)) {i : ℕ} {js : List ℕ}
    (h : StepsFrom c path i js) : ∀ x ∈ js, i < x ∧ x ≤ path.length - 1 := by
  induction h with
  | nil => simp
  | cons i j js hi hij hj hcf hmax rest ih =>
    intro x hx
    rcases List.mem_cons.mp hx with rfl | hx2
    · exact ⟨hij, hj⟩
    · exact ⟨lt_trans hij (ih x hx2).1, (ih x hx2).2⟩

/-- Maximality of the greedy scan, transferred to the anchor sequence: from
anchor number `k`, every anchor two or more positions later was already
rejected by the scan that chose anchor `k + 1`. -/
theorem StepsFrom.pairwise_far (c : Config) (path : List (K × K)) {i : ℕ} {js : List ℕ}
    (h : StepsFrom c path i js) :
    ∀ k m, k + 2 ≤ m → m < (i :: js).length →
      collisionFree c (path.getD ((i :: js).getD k 0) (0, 0))
        (path.getD ((i :: js).getD m 0) (0, 0)) = false := by
  induction h with
  | nil => intro k m h1 h2; simp at h2; omega
  | cons i j js hi hij hj hcf hmax rest ih =>
    intro k m h1 h2
    simp only [List.length_cons] at h2
    cases k with
    | zero =>
      obtain ⟨m2, rfl⟩ : ∃ m2, m = m2 + 2 := ⟨m - 2, by omega⟩
      have hmlen : m2 < js.length := by omega
      have hm : (i :: j :: js).getD (m2 + 2) 0 = js.getD m2 0 := rfl
      have hxmem : js.getD m2 0 ∈ js := by
        rw [List.getD_eq_get?, List.get?_eq_get hmlen]
        exact List.get_mem js _ _
      have hbounds := rest.mem_bounds c path _ hxmem
      rw [hm, show (i :: j :: js).getD 0 0 = i from rfl]
      exact hmax _ hbounds.1 hbounds.2
    | succ k1 =>
      obtain ⟨m1, rfl⟩ : ∃ m1, m = m1 + 1 := ⟨m - 1, by omega⟩
      have e1 : (i :: j :: js).getD (k1 + 1) 0 = (j :: js).getD k1 0 := rfl
      have e2 : (i :: j :: js).getD (m1 + 1) 0 = (j :: js).getD m1 0 := rfl
      rw [e1, e2]
      exact ih k1 m1 (by omega) (by simp; omega)

theorem getD_map_nat (gfun : ℕ → K × K) (l : List ℕ) (k : ℕ) (hk : k < l.length) :
    (l.map gfun).getD k ((0 : K), (0 : K)) = gfun (l.getD k 0) := by
  induction l generalizing k with
  | nil => simp at hk
  | cons a l ih =>
    cases k with
    | zero => rfl
    | succ k1 => exact ih k1 (by simpa using hk)

theorem take_succ_getD (s : List (K × K)) (n : ℕ) (hn : n < s.length) :
    s.take (n + 1) = s.take n ++ [s.getD n ((0 : K), (0 : K))] := by
  induction s generalizing n with
  | nil => simp at hn
  | cons a s ih =>
    cases n with
    | zero => rfl
    | succ n1 =>
      have h2 := ih n1 (by simpa using hn)
      rw [List.take_succ_cons, List.take_succ_cons, List.getD_cons_succ, h2,
        List.cons_append]

theorem shortcutGo_rerun (c : Config) (s : List (K × K))
    (hP1 : ∀ k, k + 1 < s.length →
      collisionFree c (s.getD k (0, 0)) (s.getD (k + 1) (0, 0)) = true)
    (hP2 : ∀ k m, k + 2 ≤ m → m < s.length →
      collisionFree c (s.getD k (0, 0)) (s.getD m (0, 0)) = false) :
    ∀ fuel k, k < s.length → s.length - k ≤ fuel →
      shortcutGo c s fuel k (s.take (k + 1)) = some s := by
  intro fuel
  induction fuel with
  | zero => intro k h1 h2; omega
  | succ f ih =>
    intro k h1 h2
    by_cases hk : k < s.length - 1
    · have hlt2 : k + 1 < s.length := by omega
      have hscan : scanJ c s k (s.length - 1) = k + 1 := by
        apply scanJ_eq_of_found c s (by omega) (by omega) (hP1 k (by omega))
        intro j' ha hb
        exact hP2 k j' (by omega) (by omega)
      rw [shortcutGo, if_pos hk, hscan]
      have htake : s.take (k + 2) = s.take (k + 1) ++ [s.getD (k + 1) (0, 0)] :=
        take_succ_getD s (k + 1) hlt2
      rw [show s.take (k + 1) ++ [s.getD (k + 1) (0, 0)] = s.take (k + 2) from htake.symm]
      exact ih (k + 1) (by omega) (by omega)
    · rw [shortcutGo, if_neg hk]
      have hk2 : k + 1 = s.length := by omega
      rw [hk2, List.take_length]

/-- C7: greedy shortcutting is idempotent.  Whenever the smoothing loop
returns `out` on a non-empty input path, running the smoothing loop on `out`
(with the same fuel) returns `out` unchanged: smooth(smooth(path)) ==
smooth(path). -/
theorem smoothPathShortcut_idempotent (c : Config) (fuel : ℕ) (p : K × K)
    (ps out : List (K × K)) (h : smoothPathShortcut c fuel (p :: ps) = some out) :
    smoothPathShortcut c fuel out = some out := by
  obtain ⟨js, hsteps, hout, hlen⟩ := shortcutGo_some c (p :: ps) fuel 0 _ out h
  have houtmap : out = (0 :: js).map (fun j => (p :: ps).getD j (0, 0)) := by
    rw [hout]
    simp
  have hlen_out : out.length = js.length + 1 := by rw [houtmap]; simp
  have hgetD : ∀ k, k < js.length + 1 →
      out.getD k (0, 0) = (p :: ps).getD ((0 :: js).getD k 0) (0, 0) := by
    intro k hk
    have hk2 : k < (0 :: js).length := by simp; omega
    rw [houtmap]
    exact getD_map_nat _ _ k hk2
  have hchain : List.Chain' (fun a b => collisionFree c a b = true) out := by
    have := hsteps.chain c (p :: ps)
    rw [houtmap]
    simpa using this
  have hP1 : ∀ k, k + 1 < out.length →
      collisionFree c (out.getD k (0, 0)) (out.getD (k + 1) (0, 0)) = true := by
    intro k hk
    have hk1 : k < out.length - 1 := by omega
    have hget := List.chain'_iff_get.mp hchain k hk1
    rw [List.getD_eq_get?, List.get?_eq_get (by omega : k < out.length),
      List.getD_eq_get?, List.get?_eq_get (by omega : k + 1 < out.length)]
    exact hget
  have hP2 : ∀ k m, k + 2 ≤ m → m < out.length →
      collisionFree c (out.getD k (0, 0)) (out.getD m (0, 0)) = false := by
    intro k m h1 h2
    rw [hlen_out] at h2
    rw [hgetD k (by omega), hgetD m (by omega)]
    exact hsteps.pairwise_far c (p :: ps) k m h1 (by simp; omega)
  have h0 : 0 < out.length := by omega
  have htake1 : out.take 1 = [out.getD 0 (0, 0)] := by
    cases out with
    | nil => simp at h0
    | cons o os => rfl
  rw [smoothPathShortcut, ← htake1]
  exact shortcutGo_rerun c out hP1 hP2 fuel 0 h0 (by omega)

/-- C7 witness: the one-point path [(50,50)] smooths to itself, and
re-smoothing the result returns it unchanged. -/
theorem smoothPathShortcut_idempotent_witness :
    smoothPathShortcut cfg5 1 [((50 : ℚ), (50 : ℚ))] = some [((50 : ℚ), (50 : ℚ))] :=
  smoothPathShortcut_idempotent cfg5 1 ((50 : ℚ), (50 : ℚ)) [] _ rfl

end Smoothing

/-! ## The RRT* planning loop (main, lines 174-243), over `ℝ`

Randomness is abstracted as a stream `samples : ℕ → ℝ × ℝ` of raw draws of
`cv::Point2f(dis(rng), dis(rng))`; iteration `i` uses `samples i` unless it
is a goal-biased iteration (`i % 5 == 0`). -/

/-- A node of the RRT* tree: position, parent index (`-1` for the root) and
accumulated cost. -/
structure RNode where
  point : ℝ × ℝ
  parent : ℤ
  cost : ℝ

/-- Euclidean distance `cv::norm(a - b)`. -/
noncomputable def dist (a b : ℝ × ℝ) : ℝ :=
  Real.sqrt ((a.1 - b.1) ^ 2 + (a.2 - b.2) ^ 2)

theorem dist_nonneg' (a b : ℝ × ℝ) : 0 ≤ dist a b := Real.sqrt_nonneg _

theorem dist_comm' (a b : ℝ × ℝ) : dist a b = dist b a := by
  rw [dist, dist, show (a.1 - b.1) ^ 2 = (b.1 - a.1) ^ 2 by ring,
    show (a.2 - b.2) ^ 2 = (b.2 - a.2) ^ 2 by ring]

/-- Default node for `List.getD`; mirrors the out-of-range access that C++
leaves undefined. -/
def dfltNode : RNode := ⟨(0, 0), -1, 0⟩

/-- The root node `{startPt, -1, 0}` of the tree. -/
def rootNode (startPt : ℝ × ℝ) : RNode := ⟨startPt, -1, 0⟩

/-- The nearest-neighbour scan: `nearest = -1`, `bestDist = 1e9`, then for
each node index `j` in order, strict improvement updates both. -/
noncomputable def nearestAux (randPt : ℝ × ℝ) :
    List RNode → ℕ → ℤ × ℝ → ℤ × ℝ
  | [], _, acc => acc
  | nd :: rest, j, acc =>
    if dist nd.point randPt < acc.2 then
      nearestAux randPt rest (j + 1) ((j : ℤ), dist nd.point randPt)
    else nearestAux randPt rest (j + 1) acc

/-- The choose-parent scan: for each node within `radius` of the candidate
with a collision-free connecting segment, strict cost improvement updates
(bestParent, bestCost). -/
noncomputable def chooseAux (c : Config) (newPt : ℝ × ℝ) (radius : ℝ) :
    List RNode → ℕ → ℤ × ℝ → ℤ × ℝ
  | [], _, acc => acc
  | nd :: rest, j, acc =>
    if dist nd.point newPt < radius ∧ collisionFree c nd.point newPt = true then
      if nd.cost + dist nd.point newPt < acc.2 then
        chooseAux c newPt radius rest (j + 1) ((j : ℤ), nd.cost + dist nd.point newPt)
      else chooseAux c newPt radius rest (j + 1) acc
    else chooseAux c newPt radius rest (j + 1) acc

/-- The rewire pass over the grown tree: every node other than the new one
that lies within `radius` of the new point, has a collision-free segment from
it, and would get a strictly cheaper cost, is reparented to the new node. -/
noncomputable def rewirePass (c : Config) (newPt : ℝ × ℝ) (newIdx : ℕ)
    (bestCost radius : ℝ) (tree : List RNode) : List RNode :=
  tree.mapIdx fun j nd =>
    if j ≠ newIdx ∧ dist nd.point newPt < radius ∧
        collisionFree c newPt nd.point = true ∧
        bestCost + dist newPt nd.point < nd.cost then
      ⟨nd.point, (newIdx : ℤ), bestCost + dist newPt nd.point⟩
    else nd

/-- The shrinking RRT* neighbourhood radius,
`50 * sqrt(log(treeSize + 1) / (treeSize + 1))` with the size measured
before insertion. -/
noncomputable def nbhdRadius (n : ℕ) : ℝ :=
  50 * Real.sqrt (Real.log ((n : ℝ) + 1) / ((n : ℝ) + 1))

/-- Result (nearest, bestDist) of the nearest-neighbour scan over the whole
tree, from the initial `(-1, 1e9)`. -/
noncomputable def nearestOf (tree : List RNode) (randPt : ℝ × ℝ) : ℤ × ℝ :=
  nearestAux randPt tree 0 (-1, 10 ^ 9)

/-- `tree[nearest].point`. -/
noncomputable def nearestPt (tree : List RNode) (randPt : ℝ × ℝ) : ℝ × ℝ :=
  (tree.getD (nearestOf tree randPt).1.toNat dfltNode).point

/-- The steered candidate point: move from the nearest node toward the
sample by `min(50, bestDist)` along the normalized direction, clamped into
the canvas. -/
noncomputable def steerPt (tree : List RNode) (randPt : ℝ × ℝ) : ℝ × ℝ :=
  clampToGrid
    ((nearestPt tree randPt).1 + (randPt.1 - (nearestPt tree randPt).1) *
        (min 50 (nearestOf tree randPt).2 / dist randPt (nearestPt tree randPt)),
      (nearestPt tree randPt).2 + (randPt.2 - (nearestPt tree randPt).2) *
        (min 50 (nearestOf tree randPt).2 / dist randPt (nearestPt tree randPt)))

/-- Result (bestParent, bestCost) of the choose-parent scan, initialized
with the nearest node and its connection cost. -/
noncomputable def choosePB (c : Config) (tree : List RNode) (randPt : ℝ × ℝ) : ℤ × ℝ :=
  chooseAux c (steerPt tree randPt) (nbhdRadius tree.length) tree 0
    ((nearestOf tree randPt).1,
      (tree.getD (nearestOf tree randPt).1.toNat dfltNode).cost +
        dist (nearestPt tree randPt) (steerPt tree randPt))

/-- One accepted-sample step of the loop body: nearest neighbour, steering
with step cap 50 (discard on a zero direction), bounds/collision check of the
steered point, parent choice, insertion, rewire.  Returns the grown tree and
the inserted point, or `none` when the iteration is discarded. -/
noncomputable def growTree (c : Config) (tree : List RNode) (randPt : ℝ × ℝ) :
    Option (List RNode × (ℝ × ℝ)) :=
  if dist randPt (nearestPt tree randPt) = 0 then none
  else if isInsideGrid c (steerPt tree randPt) = false ∨
      collisionFree c (nearestPt tree randPt) (steerPt tree randPt) = false then none
  else
    some (rewirePass c (steerPt tree randPt) tree.length (choosePB c tree randPt).2
      (nbhdRadius tree.length)
      (tree ++ [⟨steerPt tree randPt, (choosePB c tree randPt).1,
        (choosePB c tree randPt).2⟩]), steerPt tree randPt)

/-- One iteration of the planning loop: goal bias every 5th iteration,
sample validity check, `growTree`, then the goal-capture test
`dist(newPt, goalPt) < cellSize * 0.6`. -/
noncomputable def loopBody (c : Config) (goalPt : ℝ × ℝ) (rnd : ℝ × ℝ) (i : ℕ)
    (tree : List RNode) : List RNode × Option ℕ :=
  let randPt := if i % 5 = 0 then goalPt else clampToGrid rnd
  if isInsideGrid c randPt = false ∨ isObstacle c randPt = true then (tree, none)
  else
    match growTree c tree randPt with
    | none => (tree, none)
    | some (t2, newPt) =>
      if dist newPt goalPt < (cellSize c : ℝ) * (3 / 5) then (t2, some tree.length)
      else (t2, none)

/-- The iteration budget `MAX_ITER = 10000`. -/
def maxIter : ℕ := 10000

/-- The planning loop itself: iterate `loopBody`, stopping early with
`some goalIdx` when the capture test fires, else running the budget down and
ending with `none` (`goalIdx = -1` in the source). -/
noncomputable def planLoop (c : Config) (goalPt : ℝ × ℝ) (samples : ℕ → ℝ × ℝ) :
    ℕ → ℕ → List RNode → List RNode × Option ℕ
  | 0, _, tree => (tree, none)
  | fuel + 1, i, tree =>
    match loopBody c goalPt (samples i) i tree with
    | (t2, some g) => (t2, some g)
    | (t2, none) => planLoop c goalPt samples fuel (i + 1) t2

/-- The whole planner run: the loop from the singleton tree `{{startPt, -1, 0}}`
with the full budget. -/
noncomputable def runPlanner (c : Config) (startPt goalPt : ℝ × ℝ)
    (samples : ℕ → ℝ × ℝ) : List RNode × Option ℕ :=
  planLoop c goalPt samples maxIter 0 [rootNode startPt]

/-- The tree after `k` iterations starting from iteration counter `i` and
tree `tree` (capture or not, the loop body's tree is the same either way). -/
noncomputable def iterFrom (c : Config) (goalPt : ℝ × ℝ) (samples : ℕ → ℝ × ℝ) :
    ℕ → ℕ → List RNode → List RNode
  | 0, _, tree => tree
  | k + 1, i, tree =>
    iterFrom c goalPt samples k (i + 1) (loopBody c goalPt (samples i) i tree).1

/-- The tree state after `k` iterations of the planning loop. -/
noncomputable def stateAt (c : Config) (startPt goalPt : ℝ × ℝ)
    (samples : ℕ → ℝ × ℝ) (k : ℕ) : List RNode :=
  iterFrom c goalPt samples k 0 [rootNode startPt]

/-- Bounded walk up the parent references: true iff the root sentinel `-1`
is reached within `fuel` steps, always through valid indices. -/
def walkB (tree : List RNode) : ℕ → ℤ → Bool
  | 0, i => decide (i = -1)
  | fuel + 1, i =>
    if i = -1 then true
    else if 0 ≤ i ∧ i.toNat < tree.length then
      walkB tree fuel (tree.getD i.toNat dfltNode).parent
    else false

/-! ### Elementary list access lemmas for the tree -/

theorem getD_mapIdx_rnode (f : ℕ → RNode → RNode) :
    ∀ (l : List RNode) (j : ℕ), j < l.length →
      (l.mapIdx f).getD j dfltNode = f j (l.getD j dfltNode) := by
  intro l
  induction l generalizing f with
  | nil => intro j hj; simp at hj
  | cons a l ih =>
    intro j hj
    rw [List.mapIdx_cons]
    cases j with
    | zero => rfl
    | succ j1 =>
      rw [List.getD_cons_succ, List.getD_cons_succ]
      exact ih (fun i nd => f (i + 1) nd) j1 (by simpa using hj)

theorem getD_append_left (l1 l2 : List RNode) :
    ∀ j, j < l1.length → (l1 ++ l2).getD j dfltNode = l1.getD j dfltNode := by
  induction l1 with
  | nil => intro j hj; simp at hj
  | cons a l ih =>
    intro j hj
    cases j with
    | zero => rfl
    | succ j1 =>
      rw [List.cons_append, List.getD_cons_succ, List.getD_cons_succ]
      exact ih j1 (by simpa using hj)

theorem getD_append_self (l1 : List RNode) (x : RNode) :
    (l1 ++ [x]).getD l1.length dfltNode = x := by
  induction l1 with
  | nil => rfl
  | cons a l ih => simpa using ih

theorem rewirePass_length (c : Config) (newPt : ℝ × ℝ) (n : ℕ) (bc rad : ℝ)
    (t : List RNode) : (rewirePass c newPt n bc rad t).length = t.length := by
  simp [rewirePass]

/-- Pointwise description of the rewire pass: entry `j` is reparented to the
new node with cost `bestCost + dist(newPt, point j)` exactly when `j` is not
the new node, lies within the radius, the segment from the new point is
collision-free and the new cost is strictly smaller. -/
theorem rewirePass_getD (c : Config) (newPt : ℝ × ℝ) (n : ℕ) (bc rad : ℝ)
    (t : List RNode) (j : ℕ) (hj : j < t.length) :
    (rewirePass c newPt n bc rad t).getD j dfltNode =
      if j ≠ n ∧ dist (t.getD j dfltNode).point newPt < rad ∧
          collisionFree c newPt (t.getD j dfltNode).point = true ∧
          bc + dist newPt (t.getD j dfltNode).point < (t.getD j dfltNode).cost then
        ⟨(t.getD j dfltNode).point, (n : ℤ), bc + dist newPt (t.getD j dfltNode).point⟩
      else t.getD j dfltNode := by
  rw [rewirePass, getD_mapIdx_rnode _ t j hj]

/-! ### Facts about one loop iteration -/

theorem growTree_some_facts (c : Config) (tree : List RNode) (randPt : ℝ × ℝ)
    (t2 : List RNode) (newPt : ℝ × ℝ)
    (h : growTree c tree randPt = some (t2, newPt)) :
    t2.length = tree.length + 1 ∧
      (t2.getD tree.length dfltNode).point = newPt ∧
      ∃ bp bc, t2.getD tree.length dfltNode = ⟨newPt, bp, bc⟩ := by
  simp only [growTree] at h
  split at h
  · exact absurd h (by simp)
  · split at h
    · exact absurd h (by simp)
    · rw [Option.some_inj, Prod.mk.injEq] at h
      obtain ⟨ht2, hnp⟩ := h
      subst ht2
      subst hnp
      refine ⟨by rw [rewirePass_length]; simp, ?_⟩
      have hget := rewirePass_getD c (steerPt tree randPt) tree.length
        (choosePB c tree randPt).2 (nbhdRadius tree.length)
        (tree ++ [⟨steerPt tree randPt, (choosePB c tree randPt).1,
          (choosePB c tree randPt).2⟩]) tree.length (by simp)
      rw [if_neg (by simp)] at hget
      rw [hget, getD_append_self]
      exact ⟨rfl, _, _, rfl⟩

theorem loopBody_some_facts (c : Config) (goalPt rnd : ℝ × ℝ) (i : ℕ)
    (tree t2 : List RNode) (g : ℕ)
    (h : loopBody c goalPt rnd i tree = (t2, some g)) :
    g + 1 = t2.length ∧
      dist ((t2.getD g dfltNode).point) goalPt < (cellSize c : ℝ) * (3 / 5) := by
  simp only [loopBody] at h
  generalize (if i % 5 = 0 then goalPt else clampToGrid rnd) = randPt at h
  split at h
  · rw [Prod.mk.injEq] at h
    exact absurd h.2 (fun hc => Option.noConfusion hc)
  · split at h
    · rw [Prod.mk.injEq] at h
      exact absurd h.2 (fun hc => Option.noConfusion hc)
    · rename_i tg np hgrow
      split at h
      · rw [Prod.mk.injEq, Option.some_inj] at h
        obtain ⟨rfl, rfl⟩ := h
        obtain ⟨hl, hp, _⟩ := growTree_some_facts c tree randPt tg np hgrow
        exact ⟨by omega, by rw [hp]; assumption⟩
      · rw [Prod.mk.injEq] at h
        exact absurd h.2 (fun hc => Option.noConfusion hc)

theorem loopBody_isSome_iff (c : Config) (goalPt rnd : ℝ × ℝ) (i : ℕ)
    (tree : List RNode) :
    ((loopBody c goalPt rnd i tree).2.isSome = true) ↔
      (isInsideGrid c (if i % 5 = 0 then goalPt else clampToGrid rnd) = true ∧
        isObstacle c (if i % 5 = 0 then goalPt else clampToGrid rnd) = false ∧
        ∃ pr : List RNode × (ℝ × ℝ),
          growTree c tree (if i % 5 = 0 then goalPt else clampToGrid rnd) = some pr ∧
          dist pr.2 goalPt < (cellSize c : ℝ) * (3 / 5)) := by
  simp only [loopBody]
  generalize (if i % 5 = 0 then goalPt else clampToGrid rnd) = randPt
  split
  · rename_i hbad
    refine iff_of_false (by simp) ?_
    rintro ⟨h1, h2, -⟩
    rcases hbad with hb | hb
    · rw [h1] at hb; exact absurd hb (by simp)
    · rw [h2] at hb; exact absurd hb (by simp)
  · rename_i hok
    push_neg at hok
    obtain ⟨h1, h2⟩ := hok
    have h1' : isInsideGrid c randPt = true := by
      cases hx : isInsideGrid c randPt with
      | false => exact absurd hx h1
      | true => rfl
    have h2' : isObstacle c randPt = false := by
      cases hx : isObstacle c randPt with
      | false => rfl
      | true => exact absurd hx h2
    split
    · rename_i hgrow
      refine iff_of_false (by simp) ?_
      rintro ⟨-, -, pr, hpr, -⟩
      rw [hgrow] at hpr
      exact Option.noConfusion hpr
    · rename_i tg np hgrow
      split
      · rename_i hcap
        exact iff_of_true rfl ⟨h1', h2', (tg, np), hgrow, hcap⟩
      · rename_i hcap
        refine iff_of_false (by simp) ?_
        rintro ⟨-, -, pr, hpr, hd⟩
        rw [hgrow, Option.some_inj] at hpr
        subst hpr
        exact hcap hd

/-! ### The loop characterization (claim C5) -/

theorem planLoop_spec (c : Config) (goalPt : ℝ × ℝ) (samples : ℕ → ℝ × ℝ) :
    ∀ fuel i tree,
      (((planLoop c goalPt samples fuel i tree).2.isSome = true) ↔
        ∃ k, k < fuel ∧
          ((loopBody c goalPt (samples (i + k)) (i + k)
            (iterFrom c goalPt samples k i tree)).2.isSome = true)) ∧
      (planLoop c goalPt samples fuel i tree).2.elim True (fun g =>
        g + 1 = (planLoop c goalPt samples fuel i tree).1.length ∧
        dist (((planLoop c goalPt samples fuel i tree).1.getD g dfltNode).point)
          goalPt < (cellSize c : ℝ) * (3 / 5)) := by
  intro fuel
  induction fuel with
  | zero =>
    intro i tree
    constructor
    · simp [planLoop]
    · simp [planLoop, Option.elim]
  | succ f ih =>
    intro i tree
    rcases hb : loopBody c goalPt (samples i) i tree with ⟨t2, og⟩
    match og with
    | some g =>
      have hpl : planLoop c goalPt samples (f + 1) i tree = (t2, some g) := by
        rw [planLoop, hb]
      rw [hpl]
      constructor
      · simp only [Option.isSome_some, true_iff]
        refine ⟨0, by omega, ?_⟩
        rw [show iterFrom c goalPt samples 0 i tree = tree from rfl, Nat.add_zero, hb]
        rfl
      · obtain ⟨hg1, hg2⟩ := loopBody_some_facts c goalPt (samples i) i tree t2 g hb
        exact ⟨hg1, hg2⟩
    | none =>
      have hpl : planLoop c goalPt samples (f + 1) i tree =
          planLoop c goalPt samples f (i + 1) t2 := by
        rw [planLoop, hb]
      rw [hpl]
      obtain ⟨ih1, ih2⟩ := ih (i + 1) t2
      refine ⟨?_, ih2⟩
      rw [ih1]
      constructor
      · rintro ⟨k, hk, htr⟩
        refine ⟨k + 1, by omega, ?_⟩
        rw [show iterFrom c goalPt samples (k + 1) i tree =
            iterFrom c goalPt samples k (i + 1)
              (loopBody c goalPt (samples i) i tree).1 from rfl, hb]
        rw [show i + (k + 1) = i + 1 + k by omega]
        exact htr
      · rintro ⟨k, hk, htr⟩
        match k with
        | 0 =>
          rw [show iterFrom c goalPt samples 0 i tree = tree from rfl,
            Nat.add_zero, hb] at htr
          simp at htr
        | k1 + 1 =>
          refine ⟨k1, by omega, ?_⟩
          rw [show iterFrom c goalPt samples (k1 + 1) i tree =
              iterFrom c goalPt samples k1 (i + 1)
                (loopBody c goalPt (samples i) i tree).1 from rfl, hb] at htr
          rw [show i + (k1 + 1) = i + 1 + k1 by omega] at htr
          exact htr

/-- C5: the planner run (10000-iteration budget from the singleton root
tree) ends with a goal index (PathFound) exactly when some iteration
`k < 10000` inserts a node and that iteration's capture test fires; the goal
index then names the newly inserted last node of the final tree, which lies
within `0.6 * cellSize` of the goal position.  An iteration fires exactly
when its (possibly goal-biased, clamped) sample is in free space and
`growTree` inserts a point within the capture radius; otherwise the budget
runs out and the result carries no goal index (Exhausted). -/
theorem runPlanner_pathFound_iff (c : Config) (startPt goalPt : ℝ × ℝ)
    (samples : ℕ → ℝ × ℝ) :
    (((runPlanner c startPt goalPt samples).2.isSome = true) ↔
      ∃ k, k < maxIter ∧
        ((loopBody c goalPt (samples k) k
          (iterFrom c goalPt samples k 0 [rootNode startPt])).2.isSome = true)) ∧
    ((runPlanner c startPt goalPt samples).2.elim True (fun g =>
      g + 1 = (runPlanner c startPt goalPt samples).1.length ∧
      dist (((runPlanner c startPt goalPt samples).1.getD g dfltNode).point)
        goalPt < (cellSize c : ℝ) * (3 / 5))) ∧
    (∀ rnd i tree, ((loopBody c goalPt rnd i tree).2.isSome = true) ↔
      (isInsideGrid c (if i % 5 = 0 then goalPt else clampToGrid rnd) = true ∧
        isObstacle c (if i % 5 = 0 then goalPt else clampToGrid rnd) = false ∧
        ∃ pr : List RNode × (ℝ × ℝ),
          growTree c tree (if i % 5 = 0 then goalPt else clampToGrid rnd) = some pr ∧
          dist pr.2 goalPt < (cellSize c : ℝ) * (3 / 5))) := by
  obtain ⟨h1, h2⟩ := planLoop_spec c goalPt samples maxIter 0 [rootNode startPt]
  refine ⟨?_, h2, fun rnd i tree => loopBody_isSome_iff c goalPt rnd i tree⟩
  rw [show runPlanner c startPt goalPt samples =
    planLoop c goalPt samples maxIter 0 [rootNode startPt] from rfl, h1]
  constructor
  · rintro ⟨k, hk, htr⟩
    exact ⟨k, hk, by simpa using htr⟩
  · rintro ⟨k, hk, htr⟩
    exact ⟨k, hk, by simpa using htr⟩

/-! ### Structural invariants of the tree (claims C1 and C2) -/

/-- One parent step of the tree: node `a` exists and its parent field names
index `b`. -/
def StepRel (t : List RNode) (a b : ℕ) : Prop :=
  a < t.length ∧ (t.getD a dfltNode).parent = (b : ℤ)

/-- The tree invariant the loop maintains: parent references are the root
sentinel or valid indices; every non-root node's cost dominates its parent's
cost plus the connecting edge length (equality at creation and at rewires,
only slack afterwards because descendants of a rewired node keep stale
costs); and the parent relation has no cycle. -/
structure Inv (t : List RNode) : Prop where
  valid : ∀ j, j < t.length → (t.getD j dfltNode).parent = -1 ∨
    (0 ≤ (t.getD j dfltNode).parent ∧ (t.getD j dfltNode).parent.toNat < t.length)
  slack : ∀ j, j < t.length → 0 ≤ (t.getD j dfltNode).parent →
    (t.getD (t.getD j dfltNode).parent.toNat dfltNode).cost +
      dist ((t.getD (t.getD j dfltNode).parent.toNat dfltNode).point)
        ((t.getD j dfltNode).point) ≤ (t.getD j dfltNode).cost
  acyclic : ∀ j, ¬ Relation.TransGen (StepRel t) j j

theorem Inv.step_target_lt {t : List RNode} (hInv : Inv t) {a b : ℕ}
    (h : StepRel t a b) : b < t.length := by
  obtain ⟨ha, hp⟩ := h
  rcases hInv.valid a ha with h1 | ⟨h1, h2⟩
  · rw [hp] at h1; omega
  · rw [hp] at h2; omega

theorem Inv.cost_le_of_step {t : List RNode} (hInv : Inv t) {a b : ℕ}
    (h : StepRel t a b) :
    (t.getD b dfltNode).cost ≤ (t.getD a dfltNode).cost := by
  obtain ⟨ha, hp⟩ := h
  have hs := hInv.slack a ha (by rw [hp]; omega)
  rw [hp] at hs
  have : ((b : ℤ)).toNat = b := by omega
  rw [this] at hs
  have := dist_nonneg' (t.getD b dfltNode).point (t.getD a dfltNode).point
  linarith

theorem Inv.cost_mono {t : List RNode} (hInv : Inv t) {a b : ℕ}
    (h : Relation.TransGen (StepRel t) a b) :
    (t.getD b dfltNode).cost ≤ (t.getD a dfltNode).cost := by
  induction h with
  | single h1 => exact hInv.cost_le_of_step h1
  | tail h1 h2 ih => exact le_trans (hInv.cost_le_of_step h2) ih

theorem nearestAux_fst (randPt : ℝ × ℝ) :
    ∀ (l : List RNode) (j : ℕ) (acc : ℤ × ℝ),
      (nearestAux randPt l j acc).1 = acc.1 ∨
      (0 ≤ (nearestAux randPt l j acc).1 ∧
        (nearestAux randPt l j acc).1.toNat < j + l.length) := by
  intro l
  induction l with
  | nil => intro j acc; left; rfl
  | cons nd rest ih =>
    intro j acc
    rw [nearestAux]
    split
    · rcases ih (j + 1) ((j : ℤ), dist nd.point randPt) with h | ⟨h1, h2⟩
      · right
        rw [h]
        simp only [List.length_cons]
        omega
      · right
        exact ⟨h1, by simp only [List.length_cons]; omega⟩
    · rcases ih (j + 1) acc with h | ⟨h1, h2⟩
      · left; exact h
      · right
        exact ⟨h1, by simp only [List.length_cons]; omega⟩

theorem chooseAux_spec (c : Config) (newPt : ℝ × ℝ) (radius : ℝ)
    (tree0 : List RNode) :
    ∀ (l : List RNode) (j : ℕ) (acc : ℤ × ℝ),
      (∀ m, m < l.length → l.getD m dfltNode = tree0.getD (j + m) dfltNode) →
      j + l.length ≤ tree0.length →
      (0 ≤ acc.1 → acc.1.toNat < tree0.length ∧
        acc.2 = (tree0.getD acc.1.toNat dfltNode).cost +
          dist (tree0.getD acc.1.toNat dfltNode).point newPt) →
      (0 ≤ (chooseAux c newPt radius l j acc).1 →
        (chooseAux c newPt radius l j acc).1.toNat < tree0.length ∧
        (chooseAux c newPt radius l j acc).2 =
          (tree0.getD (chooseAux c newPt radius l j acc).1.toNat dfltNode).cost +
            dist (tree0.getD (chooseAux c newPt radius l j acc).1.toNat
              dfltNode).point newPt) := by
  intro l
  induction l with
  | nil => intro j acc hconn hlen hacc; exact hacc
  | cons nd rest ih =>
    intro j acc hconn hlen hacc
    have hnd : nd = tree0.getD j dfltNode := by
      have := hconn 0 (by simp)
      simpa using this
    have hconn2 : ∀ m, m < rest.length →
        rest.getD m dfltNode = tree0.getD (j + 1 + m) dfltNode := by
      intro m hm
      have := hconn (m + 1) (by simp; omega)
      rw [List.getD_cons_succ] at this
      rw [this]
      congr 1
      omega
    have hlen2 : j + 1 + rest.length ≤ tree0.length := by
      simp only [List.length_cons] at hlen
      omega
    rw [chooseAux]
    split
    · split
      · refine ih (j + 1) ((j : ℤ), nd.cost + dist nd.point newPt) hconn2 hlen2 ?_
        intro h0
        constructor
        · simp only [Int.toNat_natCast]
          simp only [List.length_cons] at hlen
          omega
        · simp only [Int.toNat_natCast, hnd]
      · exact ih (j + 1) acc hconn2 hlen2 hacc
    · exact ih (j + 1) acc hconn2 hlen2 hacc

/-- Appending a node whose parent is the sentinel or a valid old index with
a dominated cost preserves the invariant. -/
theorem append_inv (tree : List RNode) (nd : RNode) (hInv : Inv tree)
    (hpar : nd.parent = -1 ∨ (0 ≤ nd.parent ∧ nd.parent.toNat < tree.length ∧
      (tree.getD nd.parent.toNat dfltNode).cost +
        dist (tree.getD nd.parent.toNat dfltNode).point nd.point ≤ nd.cost)) :
    Inv (tree ++ [nd]) := by
  have hlen : (tree ++ [nd]).length = tree.length + 1 := by simp
  have hold : ∀ j, j < tree.length →
      (tree ++ [nd]).getD j dfltNode = tree.getD j dfltNode :=
    fun j hj => getD_append_left tree [nd] j hj
  have hnew : (tree ++ [nd]).getD tree.length dfltNode = nd := getD_append_self tree nd
  have hstep_lt : ∀ a b, StepRel (tree ++ [nd]) a b → b < tree.length := by
    intro a b ⟨ha, hp⟩
    rw [hlen] at ha
    by_cases hcase : a < tree.length
    · rw [hold a hcase] at hp
      rcases hInv.valid a hcase with h1 | ⟨h1, h2⟩
      · rw [hp] at h1; omega
      · rw [hp] at h2; omega
    · have : a = tree.length := by omega
      rw [this, hnew] at hp
      rcases hpar with h1 | ⟨h1, h2, h3⟩
      · rw [hp] at h1; omega
      · rw [hp] at h2; omega
  have hstep_old : ∀ a b, StepRel (tree ++ [nd]) a b → a < tree.length →
      StepRel tree a b := by
    intro a b ⟨ha, hp⟩ haa
    exact ⟨haa, by rw [← hold a haa]; exact hp⟩
  refine ⟨?_, ?_, ?_⟩
  · intro j hj
    rw [hlen] at hj
    by_cases hcase : j < tree.length
    · rw [hold j hcase]
      rcases hInv.valid j hcase with h1 | ⟨h1, h2⟩
      · exact Or.inl h1
      · exact Or.inr ⟨h1, by rw [hlen]; omega⟩
    · have : j = tree.length := by omega
      rw [this, hnew]
      rcases hpar with h1 | ⟨h1, h2, h3⟩
      · exact Or.inl h1
      · exact Or.inr ⟨h1, by rw [hlen]; omega⟩
  · intro j hj hge
    rw [hlen] at hj
    by_cases hcase : j < tree.length
    · rw [hold j hcase] at hge ⊢
      have hs := hInv.slack j hcase hge
      have hplt : (tree.getD j dfltNode).parent.toNat < tree.length := by
        rcases hInv.valid j hcase with h1 | ⟨h1, h2⟩
        · rw [h1] at hge; omega
        · exact h2
      rw [hold _ hplt]
      exact hs
    · have hj2 : j = tree.length := by omega
      rw [hj2, hnew] at hge ⊢
      rcases hpar with h1 | ⟨h1, h2, h3⟩
      · rw [h1] at hge; omega
      · rw [hold _ h2]
        exact h3
  · intro j hcyc
    have hjlt : j < tree.length := by
      obtain ⟨b, -, hb⟩ := (Relation.TransGen.tail'_iff).mp hcyc
      exact hstep_lt _ _ hb
    have htg : ∀ a b, Relation.TransGen (StepRel (tree ++ [nd])) a b →
        a < tree.length → Relation.TransGen (StepRel tree) a b := by
      intro a b h
      induction h with
      | single h1 => exact fun ha => Relation.TransGen.single (hstep_old _ _ h1 ha)
      | tail h1 h2 ih =>
        intro ha
        rename_i b' c'
        have hb' : b' < tree.length := by
          obtain ⟨x, -, hx⟩ := (Relation.TransGen.tail'_iff).mp h1
          exact hstep_lt _ _ hx
        exact Relation.TransGen.tail (ih ha) (hstep_old _ _ h2 hb')
    exact hInv.acyclic j (htg j j hcyc hjlt)

/-- The rewire pass preserves the invariant.  `n` is the freshly inserted
node (point `NP`, cost `bc`); its parent, when not the sentinel, is an index
whose cost plus connection length equals `bc`; and no node of the tree has
`n` as its parent yet. -/
theorem rewire_inv (c : Config) (NP : ℝ × ℝ) (n : ℕ) (bc rad : ℝ)
    (t1 : List RNode) (hInv1 : Inv t1) (hn : n < t1.length)
    (hpoint : (t1.getD n dfltNode).point = NP)
    (hcost : (t1.getD n dfltNode).cost = bc)
    (hparent : ∀ m : ℕ, (t1.getD n dfltNode).parent = (m : ℤ) →
      bc = (t1.getD m dfltNode).cost + dist (t1.getD m dfltNode).point NP)
    (hnoton : ∀ x, x < t1.length → (t1.getD x dfltNode).parent ≠ (n : ℤ)) :
    Inv (rewirePass c NP n bc rad t1) := by
  set t2 := rewirePass c NP n bc rad t1 with ht2
  have hlen2 : t2.length = t1.length := rewirePass_length c NP n bc rad t1
  set Rw : ℕ → Prop := fun j => j ≠ n ∧ dist (t1.getD j dfltNode).point NP < rad ∧
    collisionFree c NP (t1.getD j dfltNode).point = true ∧
    bc + dist NP (t1.getD j dfltNode).point < (t1.getD j dfltNode).cost with hRw
  have hgetD : ∀ j, j < t1.length → t2.getD j dfltNode =
      if Rw j then ⟨(t1.getD j dfltNode).point, (n : ℤ),
        bc + dist NP (t1.getD j dfltNode).point⟩
      else t1.getD j dfltNode := by
    intro j hj
    rw [ht2, rewirePass_getD c NP n bc rad t1 j hj]
  have hRwn : ¬ Rw n := fun h => h.1 rfl
  have hgetRw : ∀ j, j < t1.length → Rw j →
      t2.getD j dfltNode = ⟨(t1.getD j dfltNode).point, (n : ℤ),
        bc + dist NP (t1.getD j dfltNode).point⟩ := by
    intro j hj hrw
    rw [hgetD j hj, if_pos hrw]
  have hgetU : ∀ j, j < t1.length → ¬ Rw j → t2.getD j dfltNode = t1.getD j dfltNode := by
    intro j hj hrw
    rw [hgetD j hj, if_neg hrw]
  have hpt : ∀ j, j < t1.length →
      (t2.getD j dfltNode).point = (t1.getD j dfltNode).point := by
    intro j hj
    by_cases hrw : Rw j
    · rw [hgetRw j hj hrw]
    · rw [hgetU j hj hrw]
  have hcost_le : ∀ j, j < t1.length →
      (t2.getD j dfltNode).cost ≤ (t1.getD j dfltNode).cost := by
    intro j hj
    by_cases hrw : Rw j
    · rw [hgetRw j hj hrw]
      exact le_of_lt hrw.2.2.2
    · rw [hgetU j hj hrw]
  have hgetn : t2.getD n dfltNode = t1.getD n dfltNode := hgetU n hn hRwn
  refine ⟨?_, ?_, ?_⟩
  · intro j hj
    rw [hlen2] at hj
    by_cases hrw : Rw j
    · rw [hgetRw j hj hrw]
      right
      constructor
      · show (0 : ℤ) ≤ ((n : ℕ) : ℤ)
        omega
      · show (((n : ℕ) : ℤ)).toNat < t2.length
        rw [hlen2]
        omega
    · rw [hgetU j hj hrw]
      rcases hInv1.valid j hj with h1 | ⟨h1, h2⟩
      · exact Or.inl h1
      · exact Or.inr ⟨h1, by rw [hlen2]; exact h2⟩
  · intro j hj hge
    rw [hlen2] at hj
    by_cases hrw : Rw j
    · rw [hgetRw j hj hrw] at hge ⊢
      simp only [Int.toNat_natCast]
      rw [hgetn, hpoint, hcost]
    · rw [hgetU j hj hrw] at hge ⊢
      have hplt : (t1.getD j dfltNode).parent.toNat < t1.length := by
        rcases hInv1.valid j hj with h1 | ⟨h1, h2⟩
        · rw [h1] at hge; omega
        · exact h2
      have hs := hInv1.slack j hj hge
      calc (t2.getD (t1.getD j dfltNode).parent.toNat dfltNode).cost +
            dist ((t2.getD (t1.getD j dfltNode).parent.toNat dfltNode).point)
              ((t1.getD j dfltNode).point)
          ≤ (t1.getD (t1.getD j dfltNode).parent.toNat dfltNode).cost +
            dist ((t1.getD (t1.getD j dfltNode).parent.toNat dfltNode).point)
              ((t1.getD j dfltNode).point) := by
            rw [hpt _ hplt]
            have := hcost_le _ hplt
            linarith
        _ ≤ (t1.getD j dfltNode).cost := hs
  · -- acyclicity
    intro j hcyc
    have hstep2 : ∀ a b, StepRel t2 a b → a < t1.length := by
      intro a b ⟨ha, _⟩
      rw [hlen2] at ha
      exact ha
    have hstep_to_n : ∀ x, StepRel t2 x n → Rw x := by
      intro x ⟨hx, hp⟩
      rw [hlen2] at hx
      by_contra hnrw
      rw [hgetU x hx hnrw] at hp
      exact hnoton x hx hp
    have hstepU_t1 : ∀ a b, StepRel t2 a b → ¬ Rw a → StepRel t1 a b := by
      intro a b ⟨ha, hp⟩ hnrw
      rw [hlen2] at ha
      rw [hgetU a ha hnrw] at hp
      exact ⟨ha, hp⟩
    -- decomposition of a transitive chain at the first rewired source
    have hdecomp : ∀ a b, Relation.TransGen (StepRel t2) a b →
        Relation.TransGen (fun x y => StepRel t2 x y ∧ ¬ Rw x) a b ∨
        ∃ r z, Rw r ∧ Relation.ReflTransGen (StepRel t2) a r ∧ StepRel t2 r z ∧
          Relation.ReflTransGen (StepRel t2) z b := by
      intro a b h
      induction h using Relation.TransGen.head_induction_on with
      | base h1 =>
        rename_i x
        by_cases hrw : Rw x
        · exact Or.inr ⟨x, b, hrw, Relation.ReflTransGen.refl, h1,
            Relation.ReflTransGen.refl⟩
        · exact Or.inl (Relation.TransGen.single ⟨h1, hrw⟩)
      | ih h1 h2 ih =>
        rename_i x y
        by_cases hrw : Rw x
        · exact Or.inr ⟨x, y, hrw, Relation.ReflTransGen.refl, h1,
            h2.to_reflTransGen⟩
        · rcases ih with hl | ⟨r, z, hr1, hr2, hr3, hr4⟩
          · exact Or.inl (Relation.TransGen.head ⟨h1, hrw⟩ hl)
          · exact Or.inr ⟨r, z, hr1, Relation.ReflTransGen.head h1 hr2, hr3, hr4⟩
    -- extraction of the first rewired node along a reflexive chain
    have hfirst : ∀ a b, Relation.ReflTransGen (StepRel t2) a b → Rw b →
        ∃ r, Rw r ∧ Relation.ReflTransGen (fun x y => StepRel t2 x y ∧ ¬ Rw x) a r := by
      intro a b h hb
      induction h using Relation.ReflTransGen.head_induction_on with
      | refl => exact ⟨b, hb, Relation.ReflTransGen.refl⟩
      | head h1 h2 ih =>
        rename_i x y
        by_cases hrw : Rw x
        · exact ⟨x, hrw, Relation.ReflTransGen.refl⟩
        · obtain ⟨r, hr1, hr2⟩ := ih
          exact ⟨r, hr1, Relation.ReflTransGen.head ⟨h1, hrw⟩ hr2⟩
    -- unrewired chains only decrease t1-costs
    have hcost_chain : ∀ a b,
        Relation.ReflTransGen (fun x y => StepRel t2 x y ∧ ¬ Rw x) a b →
        (t1.getD b dfltNode).cost ≤ (t1.getD a dfltNode).cost := by
      intro a b h
      induction h using Relation.ReflTransGen.head_induction_on with
      | refl => exact le_refl _
      | head h1 h2 ih =>
        rename_i x y
        have hx := hstepU_t1 x y h1.1 h1.2
        exact le_trans ih (hInv1.cost_le_of_step hx)
    rcases hdecomp j j hcyc with hl | ⟨r, z, hr1, hr2, hr3, hr4⟩
    · -- no rewired source anywhere: this is a cycle of the pre-pass tree
      have : Relation.TransGen (StepRel t1) j j :=
        Relation.TransGen.mono (fun x y hxy => hstepU_t1 x y hxy.1 hxy.2) hl
      exact hInv1.acyclic j this
    · -- the chain passes through a rewired node r, whose parent is n
      have hrlt : r < t1.length := by
        obtain ⟨hra, _⟩ := hr3
        rw [hlen2] at hra
        exact hra
      have hz : z = n := by
        obtain ⟨hra, hp⟩ := hr3
        rw [hlen2] at hra
        rw [hgetRw r hra hr1] at hp
        have hzn : ((n : ℕ) : ℤ) = ((z : ℕ) : ℤ) := hp
        omega
      rw [hz] at hr4
      -- the full cycle gives a chain from n back to r
      have hnr : Relation.ReflTransGen (StepRel t2) n r := hr4.trans hr2
      -- its first step leaves n through the fresh node's parent
      rcases hnr.cases_head with heq | ⟨m', hstep, hchain⟩
      · exact hRwn (heq ▸ hr1)
      · obtain ⟨-, hpn⟩ := hstep
        rw [hgetn] at hpn
        -- the fresh node's parent is a real index m' with the chosen cost
        have hbc := hparent m' hpn
        have hm'lt : m' < t1.length := by
          rcases hInv1.valid n hn with h1 | ⟨h1, h2⟩
          · rw [hpn] at h1; omega
          · rw [hpn] at h2; omega
        have hnotRwm' : ¬ Rw m' := by
          intro hrw
          have h3 := hrw.2.2.2
          have h4 : dist NP (t1.getD m' dfltNode).point =
              dist (t1.getD m' dfltNode).point NP := dist_comm' _ _
          have h5 := dist_nonneg' (t1.getD m' dfltNode).point NP
          rw [hbc, h4] at h3
          linarith
        obtain ⟨r2, hr21, hr22⟩ := hfirst m' r hchain hr1
        rcases hr22.cases_tail with heq | ⟨m2, hchain2, hstep2'⟩
        · exact hnotRwm' (heq ▸ hr21)
        · have hm2cost := hcost_chain m' m2 hchain2
          have hm2step := hstepU_t1 m2 r2 hstep2'.1 hstep2'.2
          have hr2cost : (t1.getD r2 dfltNode).cost ≤ (t1.getD m2 dfltNode).cost :=
            hInv1.cost_le_of_step hm2step
          have hr2rw := hr21.2.2.2
          have h1 := dist_nonneg' NP (t1.getD r2 dfltNode).point
          have h2 := dist_nonneg' (t1.getD m' dfltNode).point NP
          rw [hbc] at hr2rw
          linarith

theorem chooseAux_fst (c : Config) (newPt : ℝ × ℝ) (radius : ℝ) :
    ∀ (l : List RNode) (j : ℕ) (acc : ℤ × ℝ),
      (chooseAux c newPt radius l j acc).1 = acc.1 ∨
        0 ≤ (chooseAux c newPt radius l j acc).1 := by
  intro l
  induction l with
  | nil => intro j acc; left; rfl
  | cons nd rest ih =>
    intro j acc
    rw [chooseAux]
    split
    · split
      · rcases ih (j + 1) ((j : ℤ), nd.cost + dist nd.point newPt) with h | h
        · right; rw [h]; omega
        · right; exact h
      · exact ih (j + 1) acc
    · exact ih (j + 1) acc

/-- A successful `growTree` step preserves the tree invariant. -/
theorem growTree_inv (c : Config) (tree : List RNode) (randPt : ℝ × ℝ)
    (t2 : List RNode) (newPt : ℝ × ℝ) (hInv : Inv tree)
    (h : growTree c tree randPt = some (t2, newPt)) : Inv t2 := by
  simp only [growTree] at h
  split at h
  · exact absurd h (fun hc => Option.noConfusion hc)
  · split at h
    · exact absurd h (fun hc => Option.noConfusion hc)
    · rw [Option.some_inj, Prod.mk.injEq] at h
      obtain ⟨ht2, hnp⟩ := h
      subst ht2
      clear hnp
      have hinit : 0 ≤ (nearestOf tree randPt).1 →
          (nearestOf tree randPt).1.toNat < tree.length ∧
          ((nearestOf tree randPt).1,
            (tree.getD (nearestOf tree randPt).1.toNat dfltNode).cost +
              dist (nearestPt tree randPt) (steerPt tree randPt)).2 =
            (tree.getD (nearestOf tree randPt).1.toNat dfltNode).cost +
              dist (tree.getD (nearestOf tree randPt).1.toNat dfltNode).point
                (steerPt tree randPt) := by
        intro h0
        rcases nearestAux_fst randPt tree 0 (-1, 10 ^ 9) with h1 | ⟨h1, h2⟩
        · rw [show (nearestOf tree randPt).1 = -1 from h1] at h0
          omega
        · exact ⟨by simpa using h2, rfl⟩
      have hgood : 0 ≤ (choosePB c tree randPt).1 →
          (choosePB c tree randPt).1.toNat < tree.length ∧
          (choosePB c tree randPt).2 =
            (tree.getD (choosePB c tree randPt).1.toNat dfltNode).cost +
              dist (tree.getD (choosePB c tree randPt).1.toNat dfltNode).point
                (steerPt tree randPt) :=
        chooseAux_spec c (steerPt tree randPt) (nbhdRadius tree.length)
          tree tree 0
          ((nearestOf tree randPt).1,
            (tree.getD (nearestOf tree randPt).1.toNat dfltNode).cost +
              dist (nearestPt tree randPt) (steerPt tree randPt))
          (fun m hm => by rw [Nat.zero_add]) (by omega) hinit
      have hsign : (choosePB c tree randPt).1 = -1 ∨ 0 ≤ (choosePB c tree randPt).1 := by
        rcases chooseAux_fst c (steerPt tree randPt) (nbhdRadius tree.length)
            tree 0 ((nearestOf tree randPt).1,
              (tree.getD (nearestOf tree randPt).1.toNat dfltNode).cost +
                dist (nearestPt tree randPt) (steerPt tree randPt)) with h1 | h1
        · rcases nearestAux_fst randPt tree 0 (-1, 10 ^ 9) with h2 | ⟨h2, h3⟩
          · left
            rw [show (choosePB c tree randPt).1 =
              (nearestOf tree randPt).1 from h1]
            exact h2
          · right
            rw [show (choosePB c tree randPt).1 =
              (nearestOf tree randPt).1 from h1]
            exact h2
        · right; exact h1
      have hInv1 : Inv (tree ++ [⟨steerPt tree randPt, (choosePB c tree randPt).1,
          (choosePB c tree randPt).2⟩]) := by
        apply append_inv tree _ hInv
        rcases hsign with h1 | h1
        · exact Or.inl h1
        · obtain ⟨hb, he⟩ := hgood h1
          exact Or.inr ⟨h1, hb, le_of_eq he.symm⟩
      apply rewire_inv c (steerPt tree randPt) tree.length
        (choosePB c tree randPt).2 (nbhdRadius tree.length) _ hInv1
      · simp
      · rw [getD_append_self]
      · rw [getD_append_self]
      · intro m hm
        rw [getD_append_self] at hm
        have hm2 : (choosePB c tree randPt).1 = (m : ℤ) := hm
        have h0 : 0 ≤ (choosePB c tree randPt).1 := by rw [hm2]; omega
        obtain ⟨hb, he⟩ := hgood h0
        have hmm : (choosePB c tree randPt).1.toNat = m := by
          rw [hm2]; omega
        rw [hmm] at hb he
        rw [getD_append_left tree _ m hb]
        exact he
      · intro x hx
        simp only [List.length_append, List.length_cons, List.length_nil] at hx
        by_cases hcase : x < tree.length
        · rw [getD_append_left tree _ x hcase]
          rcases hInv.valid x hcase with h1 | ⟨h1, h2⟩
          · rw [h1]; intro hcon; omega
          · intro hcon
            rw [hcon] at h2
            omega
        · have hxe : x = tree.length := by omega
          rw [hxe, getD_append_self]
          rcases hsign with h1 | h1
          · show (choosePB c tree randPt).1 ≠ _
            rw [h1]
            intro hcon
            omega
          · show (choosePB c tree randPt).1 ≠ _
            obtain ⟨hb, -⟩ := hgood h1
            intro hcon
            rw [hcon] at hb
            omega

theorem loopBody_inv (c : Config) (goalPt rnd : ℝ × ℝ) (i : ℕ) (tree : List RNode)
    (hInv : Inv tree) : Inv (loopBody c goalPt rnd i tree).1 := by
  simp only [loopBody]
  generalize (if i % 5 = 0 then goalPt else clampToGrid rnd) = randPt
  split
  · exact hInv
  · split
    · exact hInv
    · rename_i tg np hgrow
      split
      · exact growTree_inv c tree randPt tg np hInv hgrow
      · exact growTree_inv c tree randPt tg np hInv hgrow

theorem root_inv (startPt : ℝ × ℝ) : Inv [rootNode startPt] := by
  have hpar : ([rootNode startPt].getD 0 dfltNode).parent = -1 := rfl
  refine ⟨?_, ?_, ?_⟩
  · intro j hj
    have hj0 : j = 0 := by simp at hj; omega
    rw [hj0, hpar]
    exact Or.inl rfl
  · intro j hj hge
    have hj0 : j = 0 := by simp at hj; omega
    rw [hj0, hpar] at hge
    omega
  · intro j hcyc
    obtain ⟨x, -, hx⟩ := (Relation.TransGen.tail'_iff).mp hcyc
    obtain ⟨hxl, hp⟩ := hx
    have hx0 : x = 0 := by simp at hxl; omega
    rw [hx0, hpar] at hp
    omega

theorem iterFrom_inv (c : Config) (goalPt : ℝ × ℝ) (samples : ℕ → ℝ × ℝ) :
    ∀ k i tree, Inv tree → Inv (iterFrom c goalPt samples k i tree) := by
  intro k
  induction k with
  | zero => intro i tree h; exact h
  | succ k1 ih =>
    intro i tree h
    exact ih (i + 1) _ (loopBody_inv c goalPt (samples i) i tree h)

theorem stateAt_inv (c : Config) (startPt goalPt : ℝ × ℝ) (samples : ℕ → ℝ × ℝ)
    (k : ℕ) : Inv (stateAt c startPt goalPt samples k) :=
  iterFrom_inv c goalPt samples k 0 [rootNode startPt] (root_inv startPt)

theorem walkB_neg_one (t : List RNode) : ∀ fuel, walkB t fuel (-1) = true := by
  intro fuel
  cases fuel with
  | zero => rfl
  | succ f => rw [walkB, if_pos rfl]

open Classical in
/-- The set of strict ancestors of a node (through the parent references),
used only to measure progress of the bounded walk. -/
noncomputable def ancFinset (t : List RNode) (a : ℕ) : Finset ℕ :=
  (Finset.range t.length).filter fun x => Relation.TransGen (StepRel t) a x

theorem mem_ancFinset (t : List RNode) (a x : ℕ) :
    x ∈ ancFinset t a ↔ x < t.length ∧ Relation.TransGen (StepRel t) a x := by
  simp [ancFinset]

theorem anc_card_lt {t : List RNode} (hInv : Inv t) {a p : ℕ}
    (hstep : StepRel t a p) :
    (ancFinset t p).card < (ancFinset t a).card := by
  have hsub : ancFinset t p ⊆ ancFinset t a := by
    intro x hx
    rw [mem_ancFinset] at hx ⊢
    exact ⟨hx.1, Relation.TransGen.head hstep hx.2⟩
  have hpmem : p ∈ ancFinset t a := by
    rw [mem_ancFinset]
    exact ⟨hInv.step_target_lt hstep, Relation.TransGen.single hstep⟩
  have hpnot : p ∉ ancFinset t p := by
    rw [mem_ancFinset]
    rintro ⟨-, hcyc⟩
    exact hInv.acyclic p hcyc
  refine Finset.card_lt_card ?_
  rw [Finset.ssubset_def]
  exact ⟨hsub, fun hss => hpnot (hss hpmem)⟩

theorem walkB_strong (t : List RNode) (hInv : Inv t) :
    ∀ (fuel a : ℕ), a < t.length → (ancFinset t a).card < fuel →
      walkB t fuel (a : ℤ) = true := by
  intro fuel
  induction fuel with
  | zero => intro a ha hcard; omega
  | succ f ih =>
    intro a ha hcard
    rw [walkB, if_neg (by omega), if_pos ⟨by omega, by omega⟩]
    have htn : ((a : ℤ)).toNat = a := by omega
    rw [htn]
    rcases hInv.valid a ha with h1 | ⟨h1, h2⟩
    · rw [h1]
      exact walkB_neg_one t f
    · have hpides : (t.getD a dfltNode).parent =
          (((t.getD a dfltNode).parent.toNat : ℕ) : ℤ) := by omega
      rw [hpides]
      apply ih _ h2
      have := anc_card_lt hInv (a := a) (p := (t.getD a dfltNode).parent.toNat)
        ⟨ha, hpides⟩
      omega

/-- C2: at every point of the planning loop (any iteration count `k`, any
sample stream), following parent references from any node of the tree
reaches the root sentinel `-1` within `tree size` steps; in particular the
rewire step, which reparents only on a strict cost decrease, never creates a
cycle. -/
theorem stateAt_walk_reaches_root (c : Config) (startPt goalPt : ℝ × ℝ)
    (samples : ℕ → ℝ × ℝ) (k idx : ℕ)
    (h : idx < (stateAt c startPt goalPt samples k).length) :
    walkB (stateAt c startPt goalPt samples k)
      (stateAt c startPt goalPt samples k).length (idx : ℤ) = true := by
  have hInv := stateAt_inv c startPt goalPt samples k
  apply walkB_strong _ hInv _ idx h
  have hsub : ancFinset (stateAt c startPt goalPt samples k) idx ⊆
      (Finset.range (stateAt c startPt goalPt samples k).length).erase idx := by
    intro x hx
    rw [mem_ancFinset] at hx
    refine Finset.mem_erase.mpr ⟨?_, Finset.mem_range.mpr hx.1⟩
    intro hxe
    exact hInv.acyclic idx (hxe ▸ hx.2)
  have hcard := Finset.card_le_card hsub
  have herase : ((Finset.range (stateAt c startPt goalPt samples k).length).erase
      idx).card = (stateAt c startPt goalPt samples k).length - 1 := by
    rw [Finset.card_erase_of_mem (Finset.mem_range.mpr h), Finset.card_range]
  omega

/-- C1 amended: at every point of the planning loop, every non-root node's
cost is at least its current parent's cost plus the euclidean distance
between the node's position and the parent's position.  Equality holds at
the moment a node is created and for the rewired node at the moment of its
rewire, but descendants of a rewired node keep their stale (larger) costs,
so equality cannot be asserted at all times (see the counterexample). -/
theorem stateAt_cost_slack (c : Config) (startPt goalPt : ℝ × ℝ)
    (samples : ℕ → ℝ × ℝ) (k j : ℕ)
    (hj : j < (stateAt c startPt goalPt samples k).length)
    (hp : 0 ≤ ((stateAt c startPt goalPt samples k).getD j dfltNode).parent) :
    ((stateAt c startPt goalPt samples k).getD
        ((stateAt c startPt goalPt samples k).getD j dfltNode).parent.toNat
        dfltNode).cost +
      dist (((stateAt c startPt goalPt samples k).getD j dfltNode).point)
        (((stateAt c startPt goalPt samples k).getD
          ((stateAt c startPt goalPt samples k).getD j dfltNode).parent.toNat
          dfltNode).point) ≤
      ((stateAt c startPt goalPt samples k).getD j dfltNode).cost := by
  have h := (stateAt_inv c startPt goalPt samples k).slack j hj hp
  rw [dist_comm']
  exact h

/-! ### A concrete five-iteration run (claim C1)

Grid 5x5 (cellSize 100), obstacle cell (4,4) (so the goal-biased samples are
discarded and the loop keeps planning), start pixel (50,50), goal pixel
(450,450).  The four free samples build the chain S -> A -> B -> C and then
insert N, which rewires B to cost 50 while C keeps its stale cost
100 + sqrt 2000 ~ 144.7. -/

/-- The sample stream of the concrete run (only iterations 1..4 are used;
iteration 0 is goal-biased and discarded because the goal cell is an
obstacle). -/
noncomputable def sC1 : ℕ → ℝ × ℝ := fun i =>
  if i = 1 then (90, 80)
  else if i = 2 then (98, 36)
  else if i = 3 then (146, 50)
  else if i = 4 then (74, 43) else (0, 0)

/-- Node S, the root. -/
noncomputable def nodeS : RNode := ⟨(50, 50), -1, 0⟩

/-- Node A, inserted at iteration 1. -/
noncomputable def nodeA : RNode := ⟨(90, 80), 0, 50⟩

/-- Node B, inserted at iteration 2 with the inflated cost `50 + sqrt 2000`
(the straight distance from S to B is only 50). -/
noncomputable def nodeB : RNode := ⟨(98, 36), 1, 50 + Real.sqrt 2000⟩

/-- Node C, inserted at iteration 3 as a child of B. -/
noncomputable def nodeC : RNode := ⟨(146, 50), 2, 100 + Real.sqrt 2000⟩

/-- Node N, inserted at iteration 4 as a child of S with cost 25. -/
noncomputable def nodeN : RNode := ⟨(74, 43), 0, 25⟩

/-- Node B after the rewire of iteration 4: parent N, cost 50. -/
noncomputable def nodeB2 : RNode := ⟨(98, 36), 4, 50⟩

theorem list_eq_of_getD : ∀ (l1 l2 : List RNode), l1.length = l2.length →
    (∀ j, j < l1.length → l1.getD j dfltNode = l2.getD j dfltNode) → l1 = l2 := by
  intro l1
  induction l1 with
  | nil =>
    intro l2 hlen _
    cases l2 with
    | nil => rfl
    | cons b l2' => simp at hlen
  | cons a l ih =>
    intro l2 hlen hget
    cases l2 with
    | nil => simp at hlen
    | cons b l2' =>
      have h0 : a = b := hget 0 (by simp)
      have hrest : l = l2' := by
        refine ih l2' (by simpa using hlen) ?_
        intro j hj
        have := hget (j + 1) (by simp; omega)
        simpa using this
      rw [h0, hrest]

theorem sqrt_eval {x y : ℝ} (hy : 0 ≤ y) (h : y ^ 2 = x) : Real.sqrt x = y := by
  rw [← h]
  exact Real.sqrt_sq hy

theorem dist_pair (a b c d : ℝ) :
    dist (a, b) (c, d) = Real.sqrt ((a - c) ^ 2 + (b - d) ^ 2) := rfl

theorem clamp_id {x y : ℝ} (hx0 : 0 ≤ x) (hx : x ≤ 499) (hy0 : 0 ≤ y)
    (hy : y ≤ 499) : clampToGrid (x, y) = (x, y) := by
  rw [clampToGrid]
  rw [show min x (499 : ℝ) = x from min_eq_left hx,
    show max (0 : ℝ) x = x from max_eq_right hx0,
    show min y (499 : ℝ) = y from min_eq_left hy,
    show max (0 : ℝ) y = y from max_eq_right hy0]

theorem qcfg_free_cell {x y : ℝ} (hx0 : 0 ≤ x) (hx : x < 400) (hy0 : 0 ≤ y)
    (hy : y < 400) :
    isInsideGrid qcfg ((x : ℝ), (y : ℝ)) = true ∧
      isObstacle qcfg ((x : ℝ), (y : ℝ)) = false := by
  have hcs100 : ((cellSize qcfg : ℤ) : ℝ) = 100 := by
    norm_num [cellSize, qcfg, canvasSize]
  have htx : truncToInt (x / ((cellSize qcfg : ℤ) : ℝ)) = ⌊x / 100⌋ := by
    rw [hcs100]
    exact truncToInt_of_nonneg (by positivity)
  have hty : truncToInt (y / ((cellSize qcfg : ℤ) : ℝ)) = ⌊y / 100⌋ := by
    rw [hcs100]
    exact truncToInt_of_nonneg (by positivity)
  have hfx0 : 0 ≤ ⌊x / 100⌋ := Int.floor_nonneg.mpr (by positivity)
  have hfy0 : 0 ≤ ⌊y / 100⌋ := Int.floor_nonneg.mpr (by positivity)
  have hfx4 : ⌊x / 100⌋ < 4 := Int.floor_lt.mpr (by push_cast; linarith)
  have hfy4 : ⌊y / 100⌋ < 4 := Int.floor_lt.mpr (by push_cast; linarith)
  have hin : isInsideGrid qcfg ((x : ℝ), y) = true := by
    rw [isInsideGrid_iff]
    rw [show ((x : ℝ), y).1 = x from rfl, show ((x : ℝ), y).2 = y from rfl,
      htx, hty, show qcfg.gridSize = 5 from rfl]
    refine ⟨hfy0, by omega, hfx0, by omega⟩
  refine ⟨hin, ?_⟩
  rw [isObstacle_of_inside hin, decide_eq_false_iff_not]
  intro hmem
  rw [cellOf] at hmem
  rw [show ((x : ℝ), y).1 = x from rfl, show ((x : ℝ), y).2 = y from rfl,
    htx, hty, show qcfg.obstacles = {((4 : ℤ), (4 : ℤ))} from rfl,
    Finset.mem_singleton, Prod.mk.injEq] at hmem
  omega

theorem qcfg_cf {a b : ℝ × ℝ} (ha1 : 0 ≤ a.1) (ha2 : a.1 < 390) (ha3 : 0 ≤ a.2)
    (ha4 : a.2 < 390) (hb1 : 0 ≤ b.1) (hb2 : b.1 < 390) (hb3 : 0 ≤ b.2)
    (hb4 : b.2 < 390) : collisionFree qcfg a b = true := by
  rw [collisionFree, List.all_eq_true]
  intro i hi
  have hib : 1 ≤ i ∧ i ≤ 10 := by
    rw [List.mem_range'] at hi
    omega
  have ht0 : (0 : ℝ) ≤ (i : ℝ) / 10 := by positivity
  have ht1 : (i : ℝ) / 10 ≤ 1 := by
    rw [div_le_one (by norm_num)]
    exact_mod_cast hib.2
  have hx : 0 ≤ a.1 + (b.1 - a.1) * ((i : ℝ) / 10) ∧
      a.1 + (b.1 - a.1) * ((i : ℝ) / 10) < 400 := by
    constructor <;> nlinarith
  have hy : 0 ≤ a.2 + (b.2 - a.2) * ((i : ℝ) / 10) ∧
      a.2 + (b.2 - a.2) * ((i : ℝ) / 10) < 400 := by
    constructor <;> nlinarith
  have := qcfg_free_cell hx.1 hx.2 hy.1 hy.2
  rw [samplePt]
  rw [this.1, this.2]
  rfl

theorem abs_dx_le_dist (p q : ℝ × ℝ) : |p.1 - q.1| ≤ dist p q := by
  rw [dist, show |p.1 - q.1| = Real.sqrt ((p.1 - q.1) ^ 2) by
    rw [Real.sqrt_sq_eq_abs]]
  exact Real.sqrt_le_sqrt (by nlinarith [sq_nonneg (p.2 - q.2)])

theorem qcfg_goal_obstacle :
    isObstacle qcfg (((450 : ℝ)), (450 : ℝ)) = true := by
  have h45 : truncToInt ((450 : ℝ) / ((cellSize qcfg : ℤ) : ℝ)) = 4 := by
    rw [show ((cellSize qcfg : ℤ) : ℝ) = 100 by norm_num [cellSize, qcfg, canvasSize]]
    rw [truncToInt_of_nonneg (by positivity)]
    exact Int.floor_eq_iff.mpr ⟨by norm_num, by norm_num⟩
  have hin : isInsideGrid qcfg (((450 : ℝ)), (450 : ℝ)) = true := by
    rw [isInsideGrid_iff]
    rw [show (((450 : ℝ)), (450 : ℝ)).1 = (450 : ℝ) from rfl,
      show (((450 : ℝ)), (450 : ℝ)).2 = (450 : ℝ) from rfl, h45,
      show qcfg.gridSize = 5 from rfl]
    norm_num
  rw [isObstacle_of_inside hin, cellOf]
  rw [show (((450 : ℝ)), (450 : ℝ)).1 = (450 : ℝ) from rfl,
    show (((450 : ℝ)), (450 : ℝ)).2 = (450 : ℝ) from rfl, h45]
  simp [qcfg]

theorem qcfg_no_capture {p : ℝ × ℝ} (hp : p.1 ≤ 390) :
    ¬ (dist p ((450 : ℝ), (450 : ℝ)) < (cellSize qcfg : ℝ) * (3 / 5)) := by
  intro hcap
  have h1 : ((cellSize qcfg : ℤ) : ℝ) * (3 / 5) = 60 := by
    norm_num [cellSize, qcfg, canvasSize]
  rw [h1] at hcap
  have h2 := abs_dx_le_dist p ((450 : ℝ), 450)
  have h3 : (60 : ℝ) ≤ |p.1 - 450| := by
    rw [abs_sub_comm, abs_of_nonneg (by linarith : (0 : ℝ) ≤ 450 - p.1)]
    linarith
  linarith

theorem dist_valn {a b c d v : ℝ} (hv : 0 ≤ v)
    (h : v ^ 2 = (a - c) ^ 2 + (b - d) ^ 2) : dist (a, b) (c, d) = v := by
  rw [dist_pair]
  exact sqrt_eval hv h

theorem dist_vals {a b c d v : ℝ} (h : (a - c) ^ 2 + (b - d) ^ 2 = v) :
    dist (a, b) (c, d) = Real.sqrt v := by
  rw [dist_pair, h]

theorem dSA : dist ((50 : ℝ), 50) ((90 : ℝ), 80) = 50 :=
  dist_valn (by norm_num) (by norm_num)

theorem dAS : dist ((90 : ℝ), 80) ((50 : ℝ), 50) = 50 :=
  dist_valn (by norm_num) (by norm_num)

theorem dSB : dist ((50 : ℝ), 50) ((98 : ℝ), 36) = 50 :=
  dist_valn (by norm_num) (by norm_num)

theorem dAB : dist ((90 : ℝ), 80) ((98 : ℝ), 36) = Real.sqrt 2000 :=
  dist_vals (by norm_num)

theorem dBA : dist ((98 : ℝ), 36) ((90 : ℝ), 80) = Real.sqrt 2000 :=
  dist_vals (by norm_num)

theorem dSC : dist ((50 : ℝ), 50) ((146 : ℝ), 50) = 96 :=
  dist_valn (by norm_num) (by norm_num)

theorem dAC : dist ((90 : ℝ), 80) ((146 : ℝ), 50) = Real.sqrt 4036 :=
  dist_vals (by norm_num)

theorem dBC : dist ((98 : ℝ), 36) ((146 : ℝ), 50) = 50 :=
  dist_valn (by norm_num) (by norm_num)

theorem dCB : dist ((146 : ℝ), 50) ((98 : ℝ), 36) = 50 :=
  dist_valn (by norm_num) (by norm_num)

theorem dSN : dist ((50 : ℝ), 50) ((74 : ℝ), 43) = 25 :=
  dist_valn (by norm_num) (by norm_num)

theorem dNS : dist ((74 : ℝ), 43) ((50 : ℝ), 50) = 25 :=
  dist_valn (by norm_num) (by norm_num)

theorem dAN : dist ((90 : ℝ), 80) ((74 : ℝ), 43) = Real.sqrt 1625 :=
  dist_vals (by norm_num)

theorem dBN : dist ((98 : ℝ), 36) ((74 : ℝ), 43) = 25 :=
  dist_valn (by norm_num) (by norm_num)

theorem dNB : dist ((74 : ℝ), 43) ((98 : ℝ), 36) = 25 :=
  dist_valn (by norm_num) (by norm_num)

theorem dCN : dist ((146 : ℝ), 50) ((74 : ℝ), 43) = Real.sqrt 5233 :=
  dist_vals (by norm_num)

theorem s2000_lt : Real.sqrt 2000 < 50 :=
  (Real.sqrt_lt' (by norm_num)).mpr (by norm_num)

theorem s2000_pos : 0 < Real.sqrt 2000 := Real.sqrt_pos.mpr (by norm_num)

theorem s2000_gt : 1 < Real.sqrt 2000 :=
  (Real.lt_sqrt (by norm_num)).mpr (by norm_num)

theorem s4036_lt : Real.sqrt 4036 < 96 :=
  (Real.sqrt_lt' (by norm_num)).mpr (by norm_num)

theorem s4036_gt : 50 < Real.sqrt 4036 :=
  (Real.lt_sqrt (by norm_num)).mpr (by norm_num)

theorem s1625_ge : 25 ≤ Real.sqrt 1625 :=
  (Real.le_sqrt (by norm_num) (by norm_num)).mpr (by norm_num)

theorem s1625_le : Real.sqrt 1625 ≤ Real.sqrt 5233 :=
  Real.sqrt_le_sqrt (by norm_num)

theorem sqrt2500 : Real.sqrt 2500 = 50 := sqrt_eval (by norm_num) (by norm_num)

theorem log4_eq : Real.log 4 = 2 * Real.log 2 := by
  rw [show (4 : ℝ) = 2 ^ 2 by norm_num, Real.log_pow]
  push_cast
  ring

theorem log3_lt : Real.log 3 < 1.3862943616 := by
  have h1 : Real.log 3 < Real.log 4 := Real.log_lt_log (by norm_num) (by norm_num)
  have h2 := Real.log_two_lt_d9
  rw [log4_eq] at h1
  linarith

theorem log5_gt : 1.3862943606 < Real.log 5 := by
  have h1 : Real.log 4 < Real.log 5 := Real.log_lt_log (by norm_num) (by norm_num)
  have h2 := Real.log_two_gt_d9
  rw [log4_eq] at h1
  linarith

theorem log5_lt : Real.log 5 < 2 := by
  rw [Real.log_lt_iff_lt_exp (by norm_num)]
  have h := Real.exp_one_gt_d9
  have h2 : Real.exp 2 = Real.exp 1 * Real.exp 1 := by
    rw [← Real.exp_add]
    norm_num
  nlinarith

theorem nbhd_sq (n : ℕ) :
    nbhdRadius n = Real.sqrt (2500 * (Real.log ((n : ℝ) + 1) / ((n : ℝ) + 1))) := by
  rw [nbhdRadius, ← sqrt2500, ← Real.sqrt_mul (by norm_num)]

theorem r1_le : nbhdRadius 1 ≤ 50 := by
  rw [nbhd_sq, ← sqrt2500]
  refine Real.sqrt_le_sqrt ?_
  have h := Real.log_two_lt_d9
  norm_num
  nlinarith

theorem r2_le : nbhdRadius 2 ≤ Real.sqrt 2000 := by
  rw [nbhd_sq]
  refine Real.sqrt_le_sqrt ?_
  have h := log3_lt
  norm_num
  nlinarith

theorem r2_le50 : nbhdRadius 2 ≤ 50 := r2_le.trans s2000_lt.le

theorem r3_le : nbhdRadius 3 ≤ 50 := by
  rw [nbhd_sq, ← sqrt2500]
  refine Real.sqrt_le_sqrt ?_
  have h := Real.log_two_lt_d9
  norm_num
  rw [log4_eq]
  nlinarith

theorem r4_gt : 25 < nbhdRadius 4 := by
  rw [nbhd_sq, show (25 : ℝ) = Real.sqrt 625 from (sqrt_eval (by norm_num) (by norm_num)).symm]
  refine Real.sqrt_lt_sqrt (by norm_num) ?_
  have h := log5_gt
  norm_num
  nlinarith

theorem r4_le : nbhdRadius 4 ≤ Real.sqrt 1625 := by
  rw [nbhd_sq]
  refine Real.sqrt_le_sqrt ?_
  have h := log5_lt
  norm_num
  nlinarith

theorem iterFrom_succ_last (c : Config) (gp : ℝ × ℝ) (samples : ℕ → ℝ × ℝ) :
    ∀ (k i : ℕ) (t : List RNode),
      iterFrom c gp samples (k + 1) i t =
        (loopBody c gp (samples (i + k)) (i + k) (iterFrom c gp samples k i t)).1 := by
  intro k
  induction k with
  | zero =>
    intro i t
    simp [iterFrom]
  | succ k ih =>
    intro i t
    rw [show iterFrom c gp samples (k + 1 + 1) i t =
        iterFrom c gp samples (k + 1) (i + 1)
          ((loopBody c gp (samples i) i t).1) from rfl, ih]
    rw [show iterFrom c gp samples (k + 1) i t =
        iterFrom c gp samples k (i + 1) ((loopBody c gp (samples i) i t).1) from rfl]
    have e : i + 1 + k = i + (k + 1) := by omega
    rw [e]

theorem stateAt_succ (c : Config) (sp gp : ℝ × ℝ) (samples : ℕ → ℝ × ℝ) (k : ℕ) :
    stateAt c sp gp samples (k + 1) =
      (loopBody c gp (samples k) k (stateAt c sp gp samples k)).1 := by
  rw [stateAt, stateAt, iterFrom_succ_last]
  norm_num

theorem nearestAux_cons_lt {randPt : ℝ × ℝ} {nd : RNode} {rest : List RNode}
    {j : ℕ} {acc : ℤ × ℝ} (h : dist nd.point randPt < acc.2) :
    nearestAux randPt (nd :: rest) j acc =
      nearestAux randPt rest (j + 1) ((j : ℤ), dist nd.point randPt) := by
  rw [nearestAux, if_pos h]

theorem nearestAux_cons_ge {randPt : ℝ × ℝ} {nd : RNode} {rest : List RNode}
    {j : ℕ} {acc : ℤ × ℝ} (h : ¬ dist nd.point randPt < acc.2) :
    nearestAux randPt (nd :: rest) j acc = nearestAux randPt rest (j + 1) acc := by
  rw [nearestAux, if_neg h]

theorem nearestAux_nil (randPt : ℝ × ℝ) (j : ℕ) (acc : ℤ × ℝ) :
    nearestAux randPt [] j acc = acc := rfl

theorem chooseAux_cons_skip {c : Config} {newPt : ℝ × ℝ} {radius : ℝ}
    {nd : RNode} {rest : List RNode} {j : ℕ} {acc : ℤ × ℝ}
    (h : ¬ (dist nd.point newPt < radius ∧ collisionFree c nd.point newPt = true)) :
    chooseAux c newPt radius (nd :: rest) j acc =
      chooseAux c newPt radius rest (j + 1) acc := by
  rw [chooseAux, if_neg h]

theorem chooseAux_cons_keep {c : Config} {newPt : ℝ × ℝ} {radius : ℝ}
    {nd : RNode} {rest : List RNode} {j : ℕ} {acc : ℤ × ℝ}
    (h : dist nd.point newPt < radius ∧ collisionFree c nd.point newPt = true)
    (h2 : ¬ nd.cost + dist nd.point newPt < acc.2) :
    chooseAux c newPt radius (nd :: rest) j acc =
      chooseAux c newPt radius rest (j + 1) acc := by
  rw [chooseAux, if_pos h, if_neg h2]

theorem chooseAux_nil (c : Config) (newPt : ℝ × ℝ) (radius : ℝ) (j : ℕ)
    (acc : ℤ × ℝ) : chooseAux c newPt radius [] j acc = acc := rfl

theorem nearestPt_of {tree : List RNode} {randPt : ℝ × ℝ} {idx : ℤ} {dval : ℝ}
    (hnear : nearestOf tree randPt = (idx, dval)) :
    nearestPt tree randPt = (tree.getD idx.toNat dfltNode).point := by
  rw [nearestPt, hnear]

theorem steerPt_id {tree : List RNode} {randPt P : ℝ × ℝ} {idx : ℤ} {dval : ℝ}
    (hnear : nearestOf tree randPt = (idx, dval))
    (hnp : nearestPt tree randPt = P)
    (hd : dist randPt P = dval)
    (hle : dval ≤ 50) (hne : dval ≠ 0)
    (h1 : 0 ≤ randPt.1) (h2 : randPt.1 ≤ 499) (h3 : 0 ≤ randPt.2)
    (h4 : randPt.2 ≤ 499) : steerPt tree randPt = randPt := by
  have hratio : min 50 ((idx, dval) : ℤ × ℝ).2 / dist randPt P = 1 := by
    show min 50 dval / dist randPt P = 1
    rw [hd, min_eq_right hle, div_self hne]
  rw [steerPt, hnp, hnear, hratio]
  rw [show P.1 + (randPt.1 - P.1) * 1 = randPt.1 by ring,
    show P.2 + (randPt.2 - P.2) * 1 = randPt.2 by ring]
  rw [clamp_id h1 h2 h3 h4]

theorem growTree_eval {c : Config} {tree : List RNode} {randPt : ℝ × ℝ}
    (hne : ¬ dist randPt (nearestPt tree randPt) = 0)
    (hin : isInsideGrid c (steerPt tree randPt) = true)
    (hcf : collisionFree c (nearestPt tree randPt) (steerPt tree randPt) = true) :
    growTree c tree randPt =
      some (rewirePass c (steerPt tree randPt) tree.length
        (choosePB c tree randPt).2 (nbhdRadius tree.length)
        (tree ++ [⟨steerPt tree randPt, (choosePB c tree randPt).1,
          (choosePB c tree randPt).2⟩]), steerPt tree randPt) := by
  rw [growTree, if_neg hne, if_neg (by rw [hin, hcf]; simp)]

theorem loopBody_skip {c : Config} {gp rnd randPt : ℝ × ℝ} {i : ℕ}
    {tree : List RNode}
    (hrand : (if i % 5 = 0 then gp else clampToGrid rnd) = randPt)
    (hbad : isInsideGrid c randPt = false ∨ isObstacle c randPt = true) :
    loopBody c gp rnd i tree = (tree, none) := by
  simp only [loopBody]
  rw [hrand, if_pos hbad]

theorem loopBody_insert {c : Config} {gp rnd randPt : ℝ × ℝ} {i : ℕ}
    {tree t2 : List RNode} {np : ℝ × ℝ}
    (hrand : (if i % 5 = 0 then gp else clampToGrid rnd) = randPt)
    (hok : ¬ (isInsideGrid c randPt = false ∨ isObstacle c randPt = true))
    (hgrow : growTree c tree randPt = some (t2, np))
    (hcap : ¬ dist np gp < (cellSize c : ℝ) * (3 / 5)) :
    loopBody c gp rnd i tree = (t2, none) := by
  simp only [loopBody]
  rw [hrand, if_neg hok, hgrow]
  show (if dist np gp < (cellSize c : ℝ) * (3 / 5) then (t2, some tree.length)
    else (t2, none)) = (t2, none)
  rw [if_neg hcap]

theorem qcfg_ok {x y : ℝ} (hx0 : 0 ≤ x) (hx : x < 400) (hy0 : 0 ≤ y)
    (hy : y < 400) :
    ¬ (isInsideGrid qcfg ((x : ℝ), (y : ℝ)) = false ∨
        isObstacle qcfg ((x : ℝ), (y : ℝ)) = true) := by
  have h := qcfg_free_cell hx0 hx hy0 hy
  rw [h.1, h.2]
  simp

/-! ### The states of the concrete run -/

theorem state0_eq :
    stateAt qcfg ((50 : ℝ), 50) ((450 : ℝ), 450) sC1 0 = [nodeS] := rfl

theorem state1_eq :
    stateAt qcfg ((50 : ℝ), 50) ((450 : ℝ), 450) sC1 1 = [nodeS] := by
  rw [show (1 : ℕ) = 0 + 1 from rfl, stateAt_succ, state0_eq,
    loopBody_skip (if_pos rfl) (Or.inr qcfg_goal_obstacle)]

theorem state2_eq :
    stateAt qcfg ((50 : ℝ), 50) ((450 : ℝ), 450) sC1 2 = [nodeS, nodeA] := by
  rw [show (2 : ℕ) = 1 + 1 from rfl, stateAt_succ, state1_eq]
  have hrand : (if 1 % 5 = 0 then ((450 : ℝ), (450 : ℝ))
      else clampToGrid (sC1 1)) = ((90 : ℝ), 80) := by
    rw [if_neg (by norm_num), show sC1 1 = ((90 : ℝ), 80) from by norm_num [sC1]]
    exact clamp_id (by norm_num) (by norm_num) (by norm_num) (by norm_num)
  have hnear : nearestOf [nodeS] ((90 : ℝ), 80) = ((0 : ℤ), 50) := by
    rw [nearestOf, nearestAux_cons_lt
      (by rw [show nodeS.point = ((50 : ℝ), 50) from rfl, dSA]; norm_num),
      nearestAux_nil]
    rw [show nodeS.point = ((50 : ℝ), 50) from rfl, dSA]
    norm_num
  have hnp : nearestPt [nodeS] ((90 : ℝ), 80) = ((50 : ℝ), 50) := by
    rw [nearestPt_of hnear]
    rfl
  have hsteer : steerPt [nodeS] ((90 : ℝ), 80) = ((90 : ℝ), 80) :=
    steerPt_id hnear hnp dAS (by norm_num) (by norm_num) (by norm_num)
      (by norm_num) (by norm_num) (by norm_num)
  have hPB : choosePB qcfg [nodeS] ((90 : ℝ), 80) = ((0 : ℤ), 50) := by
    rw [choosePB, hsteer, hnp, hnear]
    show chooseAux qcfg ((90 : ℝ), 80) (nbhdRadius 1) [nodeS] 0
      ((0 : ℤ), nodeS.cost + dist ((50 : ℝ), 50) ((90 : ℝ), 80)) = ((0 : ℤ), 50)
    rw [chooseAux_cons_skip (by
      rw [show nodeS.point = ((50 : ℝ), 50) from rfl, dSA]
      intro hand
      exact absurd hand.1 (not_lt.mpr r1_le)), chooseAux_nil]
    rw [show nodeS.cost = (0 : ℝ) from rfl, dSA]
    norm_num
  have hgrow := @growTree_eval qcfg [nodeS] ((90 : ℝ), 80)
    (by rw [hnp, dAS]; norm_num)
    (by rw [hsteer]; exact (qcfg_free_cell (by norm_num) (by norm_num)
      (by norm_num) (by norm_num)).1)
    (by rw [hnp, hsteer]
        exact qcfg_cf (by norm_num) (by norm_num) (by norm_num) (by norm_num)
          (by norm_num) (by norm_num) (by norm_num) (by norm_num))
  rw [loopBody_insert hrand
    (qcfg_ok (by norm_num) (by norm_num) (by norm_num) (by norm_num)) hgrow
    (by rw [hsteer]; exact qcfg_no_capture (by norm_num))]
  show rewirePass qcfg (steerPt [nodeS] ((90 : ℝ), 80)) [nodeS].length
      (choosePB qcfg [nodeS] ((90 : ℝ), 80)).2 (nbhdRadius [nodeS].length)
      ([nodeS] ++ [⟨steerPt [nodeS] ((90 : ℝ), 80),
        (choosePB qcfg [nodeS] ((90 : ℝ), 80)).1,
        (choosePB qcfg [nodeS] ((90 : ℝ), 80)).2⟩]) = [nodeS, nodeA]
  rw [hsteer, hPB]
  refine list_eq_of_getD _ _ (by rw [rewirePass_length]; rfl) ?_
  intro j hj
  rw [rewirePass_length] at hj
  rw [show ([nodeS] ++ [(⟨((90 : ℝ), 80), ((0 : ℤ), (50 : ℝ)).1,
    ((0 : ℤ), (50 : ℝ)).2⟩ : RNode)]) = [nodeS, nodeA] from rfl] at hj ⊢
  match j, hj with
  | 0, _ =>
    rw [rewirePass_getD _ _ _ _ _ _ 0 (by norm_num), if_neg (by
      intro hand
      rw [show ([nodeS, nodeA].getD 0 dfltNode).point = ((50 : ℝ), 50) from rfl,
        dSA] at hand
      exact absurd hand.2.1 (not_lt.mpr r1_le))]
  | 1, _ =>
    rw [rewirePass_getD _ _ _ _ _ _ 1 (by norm_num), if_neg (by
      intro hand
      exact absurd rfl hand.1)]

theorem state3_eq :
    stateAt qcfg ((50 : ℝ), 50) ((450 : ℝ), 450) sC1 3 =
      [nodeS, nodeA, nodeB] := by
  rw [show (3 : ℕ) = 2 + 1 from rfl, stateAt_succ, state2_eq]
  have hrand : (if 2 % 5 = 0 then ((450 : ℝ), (450 : ℝ))
      else clampToGrid (sC1 2)) = ((98 : ℝ), 36) := by
    rw [if_neg (by norm_num), show sC1 2 = ((98 : ℝ), 36) from by norm_num [sC1]]
    exact clamp_id (by norm_num) (by norm_num) (by norm_num) (by norm_num)
  have hnear : nearestOf [nodeS, nodeA] ((98 : ℝ), 36) =
      ((1 : ℤ), Real.sqrt 2000) := by
    rw [nearestOf, nearestAux_cons_lt
        (by rw [show nodeS.point = ((50 : ℝ), 50) from rfl, dSB]; norm_num),
      nearestAux_cons_lt (by
        rw [show nodeA.point = ((90 : ℝ), 80) from rfl, dAB,
          show nodeS.point = ((50 : ℝ), 50) from rfl, dSB]
        show Real.sqrt 2000 < (50 : ℝ)
        exact s2000_lt),
      nearestAux_nil]
    rw [show nodeA.point = ((90 : ℝ), 80) from rfl, dAB]
    norm_num
  have hnp : nearestPt [nodeS, nodeA] ((98 : ℝ), 36) = ((90 : ℝ), 80) := by
    rw [nearestPt_of hnear]
    rfl
  have hsteer : steerPt [nodeS, nodeA] ((98 : ℝ), 36) = ((98 : ℝ), 36) :=
    steerPt_id hnear hnp dBA s2000_lt.le s2000_pos.ne' (by norm_num)
      (by norm_num) (by norm_num) (by norm_num)
  have hPB : choosePB qcfg [nodeS, nodeA] ((98 : ℝ), 36) =
      ((1 : ℤ), 50 + Real.sqrt 2000) := by
    rw [choosePB, hsteer, hnp, hnear]
    show chooseAux qcfg ((98 : ℝ), 36) (nbhdRadius 2) [nodeS, nodeA] 0
      ((1 : ℤ), nodeA.cost + dist ((90 : ℝ), 80) ((98 : ℝ), 36)) =
      ((1 : ℤ), 50 + Real.sqrt 2000)
    rw [chooseAux_cons_skip (by
        rw [show nodeS.point = ((50 : ℝ), 50) from rfl, dSB]
        intro hand
        exact absurd hand.1 (not_lt.mpr r2_le50)),
      chooseAux_cons_skip (by
        rw [show nodeA.point = ((90 : ℝ), 80) from rfl, dAB]
        intro hand
        exact absurd hand.1 (not_lt.mpr r2_le)),
      chooseAux_nil]
    rw [show nodeA.cost = (50 : ℝ) from rfl, dAB]
  have hgrow := @growTree_eval qcfg [nodeS, nodeA] ((98 : ℝ), 36)
    (by rw [hnp, dBA]; exact s2000_pos.ne')
    (by rw [hsteer]; exact (qcfg_free_cell (by norm_num) (by norm_num)
      (by norm_num) (by norm_num)).1)
    (by rw [hnp, hsteer]
        exact qcfg_cf (by norm_num) (by norm_num) (by norm_num) (by norm_num)
          (by norm_num) (by norm_num) (by norm_num) (by norm_num))
  rw [loopBody_insert hrand
    (qcfg_ok (by norm_num) (by norm_num) (by norm_num) (by norm_num)) hgrow
    (by rw [hsteer]; exact qcfg_no_capture (by norm_num))]
  show rewirePass qcfg (steerPt [nodeS, nodeA] ((98 : ℝ), 36))
      [nodeS, nodeA].length (choosePB qcfg [nodeS, nodeA] ((98 : ℝ), 36)).2
      (nbhdRadius [nodeS, nodeA].length)
      ([nodeS, nodeA] ++ [⟨steerPt [nodeS, nodeA] ((98 : ℝ), 36),
        (choosePB qcfg [nodeS, nodeA] ((98 : ℝ), 36)).1,
        (choosePB qcfg [nodeS, nodeA] ((98 : ℝ), 36)).2⟩]) =
      [nodeS, nodeA, nodeB]
  rw [hsteer, hPB]
  refine list_eq_of_getD _ _ (by rw [rewirePass_length]; rfl) ?_
  intro j hj
  rw [rewirePass_length] at hj
  rw [show ([nodeS, nodeA] ++ [(⟨((98 : ℝ), 36),
    ((1 : ℤ), 50 + Real.sqrt 2000).1,
    ((1 : ℤ), 50 + Real.sqrt 2000).2⟩ : RNode)]) = [nodeS, nodeA, nodeB]
    from rfl] at hj ⊢
  match j, hj with
  | 0, _ =>
    rw [rewirePass_getD _ _ _ _ _ _ 0 (by norm_num), if_neg (by
      intro hand
      rw [show ([nodeS, nodeA, nodeB].getD 0 dfltNode).point = ((50 : ℝ), 50)
        from rfl, dSB] at hand
      exact absurd hand.2.1 (not_lt.mpr r2_le50))]
  | 1, _ =>
    rw [rewirePass_getD _ _ _ _ _ _ 1 (by norm_num), if_neg (by
      intro hand
      rw [show ([nodeS, nodeA, nodeB].getD 1 dfltNode).point = ((90 : ℝ), 80)
        from rfl, dAB] at hand
      exact absurd hand.2.1 (not_lt.mpr r2_le))]
  | 2, _ =>
    rw [rewirePass_getD _ _ _ _ _ _ 2 (by norm_num), if_neg (by
      intro hand
      exact absurd rfl hand.1)]

theorem state4_eq :
    stateAt qcfg ((50 : ℝ), 50) ((450 : ℝ), 450) sC1 4 =
      [nodeS, nodeA, nodeB, nodeC] := by
  rw [show (4 : ℕ) = 3 + 1 from rfl, stateAt_succ, state3_eq]
  have hrand : (if 3 % 5 = 0 then ((450 : ℝ), (450 : ℝ))
      else clampToGrid (sC1 3)) = ((146 : ℝ), 50) := by
    rw [if_neg (by norm_num), show sC1 3 = ((146 : ℝ), 50) from by norm_num [sC1]]
    exact clamp_id (by norm_num) (by norm_num) (by norm_num) (by norm_num)
  have hnear : nearestOf [nodeS, nodeA, nodeB] ((146 : ℝ), 50) =
      ((2 : ℤ), 50) := by
    rw [nearestOf, nearestAux_cons_lt
        (by rw [show nodeS.point = ((50 : ℝ), 50) from rfl, dSC]; norm_num),
      nearestAux_cons_lt (by
        rw [show nodeA.point = ((90 : ℝ), 80) from rfl, dAC,
          show nodeS.point = ((50 : ℝ), 50) from rfl, dSC]
        show Real.sqrt 4036 < (96 : ℝ)
        exact s4036_lt),
      nearestAux_cons_lt (by
        rw [show nodeB.point = ((98 : ℝ), 36) from rfl, dBC,
          show nodeA.point = ((90 : ℝ), 80) from rfl, dAC]
        show (50 : ℝ) < Real.sqrt 4036
        exact s4036_gt),
      nearestAux_nil]
    rw [show nodeB.point = ((98 : ℝ), 36) from rfl, dBC]
    norm_num
  have hnp : nearestPt [nodeS, nodeA, nodeB] ((146 : ℝ), 50) =
      ((98 : ℝ), 36) := by
    rw [nearestPt_of hnear]
    rfl
  have hsteer : steerPt [nodeS, nodeA, nodeB] ((146 : ℝ), 50) =
      ((146 : ℝ), 50) :=
    steerPt_id hnear hnp dCB (by norm_num) (by norm_num) (by norm_num)
      (by norm_num) (by norm_num) (by norm_num)
  have hPB : choosePB qcfg [nodeS, nodeA, nodeB] ((146 : ℝ), 50) =
      ((2 : ℤ), 50 + Real.sqrt 2000 + 50) := by
    rw [choosePB, hsteer, hnp, hnear]
    show chooseAux qcfg ((146 : ℝ), 50) (nbhdRadius 3) [nodeS, nodeA, nodeB] 0
      ((2 : ℤ), nodeB.cost + dist ((98 : ℝ), 36) ((146 : ℝ), 50)) =
      ((2 : ℤ), 50 + Real.sqrt 2000 + 50)
    rw [chooseAux_cons_skip (by
        rw [show nodeS.point = ((50 : ℝ), 50) from rfl, dSC]
        intro hand
        exact absurd hand.1 (not_lt.mpr (r3_le.trans (by norm_num)))),
      chooseAux_cons_skip (by
        rw [show nodeA.point = ((90 : ℝ), 80) from rfl, dAC]
        intro hand
        exact absurd hand.1 (not_lt.mpr (r3_le.trans s4036_gt.le))),
      chooseAux_cons_skip (by
        rw [show nodeB.point = ((98 : ℝ), 36) from rfl, dBC]
        intro hand
        exact absurd hand.1 (not_lt.mpr r3_le)),
      chooseAux_nil]
    rw [show nodeB.cost = (50 : ℝ) + Real.sqrt 2000 from rfl, dBC]
  have hgrow := @growTree_eval qcfg [nodeS, nodeA, nodeB] ((146 : ℝ), 50)
    (by rw [hnp, dCB]; norm_num)
    (by rw [hsteer]; exact (qcfg_free_cell (by norm_num) (by norm_num)
      (by norm_num) (by norm_num)).1)
    (by rw [hnp, hsteer]
        exact qcfg_cf (by norm_num) (by norm_num) (by norm_num) (by norm_num)
          (by norm_num) (by norm_num) (by norm_num) (by norm_num))
  rw [loopBody_insert hrand
    (qcfg_ok (by norm_num) (by norm_num) (by norm_num) (by norm_num)) hgrow
    (by rw [hsteer]; exact qcfg_no_capture (by norm_num))]
  show rewirePass qcfg (steerPt [nodeS, nodeA, nodeB] ((146 : ℝ), 50))
      [nodeS, nodeA, nodeB].length
      (choosePB qcfg [nodeS, nodeA, nodeB] ((146 : ℝ), 50)).2
      (nbhdRadius [nodeS, nodeA, nodeB].length)
      ([nodeS, nodeA, nodeB] ++ [⟨steerPt [nodeS, nodeA, nodeB] ((146 : ℝ), 50),
        (choosePB qcfg [nodeS, nodeA, nodeB] ((146 : ℝ), 50)).1,
        (choosePB qcfg [nodeS, nodeA, nodeB] ((146 : ℝ), 50)).2⟩]) =
      [nodeS, nodeA, nodeB, nodeC]
  rw [hsteer, hPB]
  rw [show ([nodeS, nodeA, nodeB] ++ [(⟨((146 : ℝ), 50),
    ((2 : ℤ), 50 + Real.sqrt 2000 + 50).1,
    ((2 : ℤ), 50 + Real.sqrt 2000 + 50).2⟩ : RNode)]) =
    [nodeS, nodeA, nodeB, (⟨((146 : ℝ), 50), (2 : ℤ),
      50 + Real.sqrt 2000 + 50⟩ : RNode)] from rfl]
  refine list_eq_of_getD _ _ (by rw [rewirePass_length]; rfl) ?_
  intro j hj
  rw [rewirePass_length] at hj
  match j, hj with
  | 0, _ =>
    rw [rewirePass_getD _ _ _ _ _ _ 0 (by norm_num), if_neg (by
      intro hand
      rw [show ([nodeS, nodeA, nodeB, (⟨((146 : ℝ), 50), (2 : ℤ),
        50 + Real.sqrt 2000 + 50⟩ : RNode)].getD 0 dfltNode).point =
        ((50 : ℝ), 50) from rfl, dSC] at hand
      exact absurd hand.2.1 (not_lt.mpr (r3_le.trans (by norm_num))))]
    rfl
  | 1, _ =>
    rw [rewirePass_getD _ _ _ _ _ _ 1 (by norm_num), if_neg (by
      intro hand
      rw [show ([nodeS, nodeA, nodeB, (⟨((146 : ℝ), 50), (2 : ℤ),
        50 + Real.sqrt 2000 + 50⟩ : RNode)].getD 1 dfltNode).point =
        ((90 : ℝ), 80) from rfl, dAC] at hand
      exact absurd hand.2.1 (not_lt.mpr (r3_le.trans s4036_gt.le)))]
    rfl
  | 2, _ =>
    rw [rewirePass_getD _ _ _ _ _ _ 2 (by norm_num), if_neg (by
      intro hand
      rw [show ([nodeS, nodeA, nodeB, (⟨((146 : ℝ), 50), (2 : ℤ),
        50 + Real.sqrt 2000 + 50⟩ : RNode)].getD 2 dfltNode).point =
        ((98 : ℝ), 36) from rfl, dBC] at hand
      exact absurd hand.2.1 (not_lt.mpr r3_le))]
    rfl
  | 3, _ =>
    rw [rewirePass_getD _ _ _ _ _ _ 3 (by norm_num), if_neg (by
      intro hand
      exact absurd rfl hand.1)]
    show (⟨((146 : ℝ), 50), (2 : ℤ), 50 + Real.sqrt 2000 + 50⟩ : RNode) = nodeC
    rw [show (50 : ℝ) + Real.sqrt 2000 + 50 = 100 + Real.sqrt 2000 by ring]
    rfl

theorem state5_eq :
    stateAt qcfg ((50 : ℝ), 50) ((450 : ℝ), 450) sC1 5 =
      [nodeS, nodeA, nodeB2, nodeC, nodeN] := by
  rw [show (5 : ℕ) = 4 + 1 from rfl, stateAt_succ, state4_eq]
  have hrand : (if 4 % 5 = 0 then ((450 : ℝ), (450 : ℝ))
      else clampToGrid (sC1 4)) = ((74 : ℝ), 43) := by
    rw [if_neg (by norm_num), show sC1 4 = ((74 : ℝ), 43) from by norm_num [sC1]]
    exact clamp_id (by norm_num) (by norm_num) (by norm_num) (by norm_num)
  have hnear : nearestOf [nodeS, nodeA, nodeB, nodeC] ((74 : ℝ), 43) =
      ((0 : ℤ), 25) := by
    rw [nearestOf, nearestAux_cons_lt
        (by rw [show nodeS.point = ((50 : ℝ), 50) from rfl, dSN]; norm_num),
      nearestAux_cons_ge (by
        rw [show nodeA.point = ((90 : ℝ), 80) from rfl, dAN,
          show nodeS.point = ((50 : ℝ), 50) from rfl, dSN]
        show ¬ Real.sqrt 1625 < (25 : ℝ)
        exact not_lt.mpr s1625_ge),
      nearestAux_cons_ge (by
        rw [show nodeB.point = ((98 : ℝ), 36) from rfl, dBN,
          show nodeS.point = ((50 : ℝ), 50) from rfl, dSN]
        show ¬ (25 : ℝ) < (25 : ℝ)
        exact lt_irrefl 25),
      nearestAux_cons_ge (by
        rw [show nodeC.point = ((146 : ℝ), 50) from rfl, dCN,
          show nodeS.point = ((50 : ℝ), 50) from rfl, dSN]
        show ¬ Real.sqrt 5233 < (25 : ℝ)
        exact not_lt.mpr (s1625_ge.trans s1625_le)),
      nearestAux_nil]
    rw [show nodeS.point = ((50 : ℝ), 50) from rfl, dSN]
    norm_num
  have hnp : nearestPt [nodeS, nodeA, nodeB, nodeC] ((74 : ℝ), 43) =
      ((50 : ℝ), 50) := by
    rw [nearestPt_of hnear]
    rfl
  have hsteer : steerPt [nodeS, nodeA, nodeB, nodeC] ((74 : ℝ), 43) =
      ((74 : ℝ), 43) :=
    steerPt_id hnear hnp dNS (by norm_num) (by norm_num) (by norm_num)
      (by norm_num) (by norm_num) (by norm_num)
  have hPB : choosePB qcfg [nodeS, nodeA, nodeB, nodeC] ((74 : ℝ), 43) =
      ((0 : ℤ), 25) := by
    rw [choosePB, hsteer, hnp, hnear]
    show chooseAux qcfg ((74 : ℝ), 43) (nbhdRadius 4)
      [nodeS, nodeA, nodeB, nodeC] 0
      ((0 : ℤ), nodeS.cost + dist ((50 : ℝ), 50) ((74 : ℝ), 43)) = ((0 : ℤ), 25)
    rw [chooseAux_cons_keep (by
        constructor
        · rw [show nodeS.point = ((50 : ℝ), 50) from rfl, dSN]
          exact r4_gt
        · rw [show nodeS.point = ((50 : ℝ), 50) from rfl]
          exact qcfg_cf (by norm_num) (by norm_num) (by norm_num) (by norm_num)
            (by norm_num) (by norm_num) (by norm_num) (by norm_num))
      (by
        rw [show nodeS.point = ((50 : ℝ), 50) from rfl]
        exact lt_irrefl _),
      chooseAux_cons_skip (by
        rw [show nodeA.point = ((90 : ℝ), 80) from rfl, dAN]
        intro hand
        exact absurd hand.1 (not_lt.mpr r4_le)),
      chooseAux_cons_keep (by
        constructor
        · rw [show nodeB.point = ((98 : ℝ), 36) from rfl, dBN]
          exact r4_gt
        · rw [show nodeB.point = ((98 : ℝ), 36) from rfl]
          exact qcfg_cf (by norm_num) (by norm_num) (by norm_num) (by norm_num)
            (by norm_num) (by norm_num) (by norm_num) (by norm_num))
      (by
        rw [show nodeB.cost = (50 : ℝ) + Real.sqrt 2000 from rfl,
          show nodeB.point = ((98 : ℝ), 36) from rfl, dBN,
          show nodeS.cost = (0 : ℝ) from rfl, dSN]
        show ¬ (50 : ℝ) + Real.sqrt 2000 + 25 < ((0 : ℤ), (0 : ℝ) + 25).2
        show ¬ (50 : ℝ) + Real.sqrt 2000 + 25 < (0 : ℝ) + 25
        exact not_lt.mpr (by nlinarith [Real.sqrt_nonneg (2000 : ℝ)])),
      chooseAux_cons_skip (by
        rw [show nodeC.point = ((146 : ℝ), 50) from rfl, dCN]
        intro hand
        exact absurd hand.1 (not_lt.mpr (r4_le.trans s1625_le))),
      chooseAux_nil]
    rw [show nodeS.cost = (0 : ℝ) from rfl, dSN]
    norm_num
  have hgrow := @growTree_eval qcfg [nodeS, nodeA, nodeB, nodeC] ((74 : ℝ), 43)
    (by rw [hnp, dNS]; norm_num)
    (by rw [hsteer]; exact (qcfg_free_cell (by norm_num) (by norm_num)
      (by norm_num) (by norm_num)).1)
    (by rw [hnp, hsteer]
        exact qcfg_cf (by norm_num) (by norm_num) (by norm_num) (by norm_num)
          (by norm_num) (by norm_num) (by norm_num) (by norm_num))
  rw [loopBody_insert hrand
    (qcfg_ok (by norm_num) (by norm_num) (by norm_num) (by norm_num)) hgrow
    (by rw [hsteer]; exact qcfg_no_capture (by norm_num))]
  show rewirePass qcfg (steerPt [nodeS, nodeA, nodeB, nodeC] ((74 : ℝ), 43))
      [nodeS, nodeA, nodeB, nodeC].length
      (choosePB qcfg [nodeS, nodeA, nodeB, nodeC] ((74 : ℝ), 43)).2
      (nbhdRadius [nodeS, nodeA, nodeB, nodeC].length)
      ([nodeS, nodeA, nodeB, nodeC] ++
        [⟨steerPt [nodeS, nodeA, nodeB, nodeC] ((74 : ℝ), 43),
          (choosePB qcfg [nodeS, nodeA, nodeB, nodeC] ((74 : ℝ), 43)).1,
          (choosePB qcfg [nodeS, nodeA, nodeB, nodeC] ((74 : ℝ), 43)).2⟩]) =
      [nodeS, nodeA, nodeB2, nodeC, nodeN]
  rw [hsteer, hPB]
  rw [show ([nodeS, nodeA, nodeB, nodeC] ++ [(⟨((74 : ℝ), 43),
    ((0 : ℤ), (25 : ℝ)).1, ((0 : ℤ), (25 : ℝ)).2⟩ : RNode)]) =
    [nodeS, nodeA, nodeB, nodeC, nodeN] from rfl]
  refine list_eq_of_getD _ _ (by rw [rewirePass_length]; rfl) ?_
  intro j hj
  rw [rewirePass_length] at hj
  match j, hj with
  | 0, _ =>
    rw [rewirePass_getD _ _ _ _ _ _ 0 (by norm_num), if_neg (by
      intro hand
      have h4 := hand.2.2.2
      rw [show ([nodeS, nodeA, nodeB, nodeC, nodeN].getD 0 dfltNode).point =
        ((50 : ℝ), 50) from rfl,
        show ([nodeS, nodeA, nodeB, nodeC, nodeN].getD 0 dfltNode).cost =
        (0 : ℝ) from rfl, dNS] at h4
      norm_num at h4)]
    rfl
  | 1, _ =>
    rw [rewirePass_getD _ _ _ _ _ _ 1 (by norm_num), if_neg (by
      intro hand
      rw [show ([nodeS, nodeA, nodeB, nodeC, nodeN].getD 1 dfltNode).point =
        ((90 : ℝ), 80) from rfl, dAN] at hand
      exact absurd hand.2.1 (not_lt.mpr r4_le))]
    rfl
  | 2, _ =>
    rw [rewirePass_getD _ _ _ _ _ _ 2 (by norm_num), if_pos (by
      refine ⟨by norm_num, ?_, ?_, ?_⟩
      · rw [show ([nodeS, nodeA, nodeB, nodeC, nodeN].getD 2 dfltNode).point =
          ((98 : ℝ), 36) from rfl, dBN]
        exact r4_gt
      · rw [show ([nodeS, nodeA, nodeB, nodeC, nodeN].getD 2 dfltNode).point =
          ((98 : ℝ), 36) from rfl]
        exact qcfg_cf (by norm_num) (by norm_num) (by norm_num) (by norm_num)
          (by norm_num) (by norm_num) (by norm_num) (by norm_num)
      · rw [show ([nodeS, nodeA, nodeB, nodeC, nodeN].getD 2 dfltNode).point =
          ((98 : ℝ), 36) from rfl,
          show ([nodeS, nodeA, nodeB, nodeC, nodeN].getD 2 dfltNode).cost =
          (50 : ℝ) + Real.sqrt 2000 from rfl, dNB]
        show ((0 : ℤ), (25 : ℝ)).2 + 25 < 50 + Real.sqrt 2000
        show (25 : ℝ) + 25 < 50 + Real.sqrt 2000
        nlinarith [s2000_pos])]
    rw [show ([nodeS, nodeA, nodeB, nodeC, nodeN].getD 2 dfltNode).point =
      ((98 : ℝ), 36) from rfl, dNB]
    show (⟨((98 : ℝ), 36), (4 : ℤ), (25 : ℝ) + 25⟩ : RNode) =
      [nodeS, nodeA, nodeB2, nodeC, nodeN].getD 2 dfltNode
    rw [show (25 : ℝ) + 25 = (50 : ℝ) by norm_num]
    rfl
  | 3, _ =>
    rw [rewirePass_getD _ _ _ _ _ _ 3 (by norm_num), if_neg (by
      intro hand
      rw [show ([nodeS, nodeA, nodeB, nodeC, nodeN].getD 3 dfltNode).point =
        ((146 : ℝ), 50) from rfl, dCN] at hand
      exact absurd hand.2.1 (not_lt.mpr (r4_le.trans s1625_le)))]
    rfl
  | 4, _ =>
    rw [rewirePass_getD _ _ _ _ _ _ 4 (by norm_num), if_neg (by
      intro hand
      exact absurd rfl hand.1)]
    rfl

/-- C1 counterexample: in the concrete five-iteration run, node 3 of the
tree has parent 2, yet its stored cost differs from
`cost(parent) + dist(node, parent)` by `sqrt 2000 > 44`, far beyond any
floating tolerance: iteration 4 rewired node 2 (cost 50 + sqrt 2000 -> 50)
without updating its child's stale cost. -/
theorem stateAt_cost_exact_counterexample :
    ((stateAt qcfg ((50 : ℝ), 50) ((450 : ℝ), 450) sC1 5).getD 3
      dfltNode).parent = 2 ∧
    1 < |((stateAt qcfg ((50 : ℝ), 50) ((450 : ℝ), 450) sC1 5).getD 3
        dfltNode).cost -
      (((stateAt qcfg ((50 : ℝ), 50) ((450 : ℝ), 450) sC1 5).getD
          ((stateAt qcfg ((50 : ℝ), 50) ((450 : ℝ), 450) sC1 5).getD 3
            dfltNode).parent.toNat dfltNode).cost +
        dist (((stateAt qcfg ((50 : ℝ), 50) ((450 : ℝ), 450) sC1 5).getD 3
            dfltNode).point)
          (((stateAt qcfg ((50 : ℝ), 50) ((450 : ℝ), 450) sC1 5).getD
            ((stateAt qcfg ((50 : ℝ), 50) ((450 : ℝ), 450) sC1 5).getD 3
              dfltNode).parent.toNat dfltNode).point))| := by
  rw [state5_eq]
  refine ⟨rfl, ?_⟩
  show 1 < |(100 + Real.sqrt 2000) -
    ((50 : ℝ) + dist ((146 : ℝ), 50) ((98 : ℝ), 36))|
  rw [dCB, show (100 : ℝ) + Real.sqrt 2000 - (50 + 50) = Real.sqrt 2000 by
    ring, abs_of_nonneg (Real.sqrt_nonneg _)]
  exact s2000_gt

/-- C1 amended witness: the slack inequality evaluated in the concrete run
after two iterations, at node 1 (a child of the root): parent cost plus
distance is at most the node's cost. -/
theorem stateAt_cost_slack_witness :
    ((stateAt qcfg ((50 : ℝ), 50) ((450 : ℝ), 450) sC1 2).getD
        ((stateAt qcfg ((50 : ℝ), 50) ((450 : ℝ), 450) sC1 2).getD 1
          dfltNode).parent.toNat dfltNode).cost +
      dist (((stateAt qcfg ((50 : ℝ), 50) ((450 : ℝ), 450) sC1 2).getD 1
          dfltNode).point)
        (((stateAt qcfg ((50 : ℝ), 50) ((450 : ℝ), 450) sC1 2).getD
          ((stateAt qcfg ((50 : ℝ), 50) ((450 : ℝ), 450) sC1 2).getD 1
            dfltNode).parent.toNat dfltNode).point) ≤
      ((stateAt qcfg ((50 : ℝ), 50) ((450 : ℝ), 450) sC1 2).getD 1
        dfltNode).cost :=
  stateAt_cost_slack qcfg ((50 : ℝ), 50) ((450 : ℝ), 450) sC1 2 1
    (by rw [state2_eq]; norm_num)
    (by rw [state2_eq]; exact le_refl 0)

/-- C2 witness: the bounded parent walk evaluated in the concrete run after
five iterations, from node 3: it reaches the root sentinel within
tree-size steps. -/
theorem stateAt_walk_reaches_root_witness :
    walkB (stateAt qcfg ((50 : ℝ), 50) ((450 : ℝ), 450) sC1 5)
      (stateAt qcfg ((50 : ℝ), 50) ((450 : ℝ), 450) sC1 5).length
      ((3 : ℕ) : ℤ) = true :=
  stateAt_walk_reaches_root qcfg ((50 : ℝ), 50) ((450 : ℝ), 450) sC1 5 3
    (by rw [state5_eq]; norm_num)

end RRT
